import Mathlib

/-!
Shallow embedding of the sortify-rs media-ingestion pipeline
(src/src/naming.rs, src/src/exif.rs, src/src/file_ops.rs, src/src/hashing.rs)
together with proofs about its timestamp resolution, filename generation,
hash-index construction and batch orchestration.

Machine integers (u16, u32, i32, usize) are modelled as Nat / Int; all values
manipulated by the code stay far below every overflow boundary, and no
wrap-around arithmetic occurs in the modelled paths.  Filesystem and
metadata-backend effects are modelled by an explicit environment record
(`FsEnv`): each system call's outcome is given by an oracle field, and
filesystem mutations performed by the code are recorded as an explicit action
trace.
-/

/-! ### Decimal rendering (model of Rust's `{}` / `{:02}` / `{:03}` formatting) -/

/-- Fuel-driven digit extraction; `fuel ≥ n` always suffices because the
argument shrinks by a factor of ten each step. -/
def digitsRevAux : Nat → Nat → List Nat
  | 0, _ => []
  | fuel + 1, n => if n = 0 then [] else n % 10 :: digitsRevAux fuel (n / 10)

/-- Decimal digits of a natural number, least significant digit first
(empty for 0). -/
def digitsRev (n : Nat) : List Nat := digitsRevAux n n

theorem digitsRevAux_congr : ∀ f1 f2 n, n ≤ f1 → n ≤ f2 →
    digitsRevAux f1 n = digitsRevAux f2 n := by
  intro f1
  induction f1 with
  | zero =>
    intro f2 n h1 _
    have : n = 0 := by omega
    subst this
    cases f2 <;> simp [digitsRevAux]
  | succ f1 ih =>
    intro f2 n h1 h2
    cases f2 with
    | zero =>
      have : n = 0 := by omega
      subst this
      simp [digitsRevAux]
    | succ f2 =>
      by_cases h0 : n = 0
      · simp [digitsRevAux, h0]
      · simp only [digitsRevAux, h0, if_false]
        have hlt : n / 10 < n := Nat.div_lt_self (Nat.pos_of_ne_zero h0) (by norm_num)
        rw [ih f2 (n / 10) (by omega) (by omega)]

/-- The defining recurrence of `digitsRev`. -/
theorem digitsRev_eq (n : Nat) :
    digitsRev n = if n = 0 then [] else n % 10 :: digitsRev (n / 10) := by
  by_cases h0 : n = 0
  · subst h0; rfl
  · rw [if_neg h0]
    obtain ⟨m, rfl⟩ : ∃ m, n = m + 1 := ⟨n - 1, by omega⟩
    simp only [digitsRev, digitsRevAux, h0, if_false]
    have hlt : (m + 1) / 10 < m + 1 := Nat.div_lt_self (by omega) (by norm_num)
    rw [digitsRevAux_congr m ((m + 1) / 10) ((m + 1) / 10) (by omega) (le_refl _)]

/-- Value of a little-endian digit list. -/
def undigits : List Nat → Nat
  | [] => 0
  | d :: ds => d + 10 * undigits ds

theorem undigits_digitsRev (n : Nat) : undigits (digitsRev n) = n := by
  induction n using Nat.strong_induction_on with
  | _ n ih =>
    rw [digitsRev_eq]
    by_cases h : n = 0
    · simp [h, undigits]
    · simp only [h, if_false, undigits]
      rw [ih (n / 10) (Nat.div_lt_self (Nat.pos_of_ne_zero h) (by norm_num))]
      omega

theorem digitsRev_lt_ten (n : Nat) : ∀ d ∈ digitsRev n, d < 10 := by
  induction n using Nat.strong_induction_on with
  | _ n ih =>
    rw [digitsRev_eq]
    by_cases h : n = 0
    · simp [h]
    · simp only [h, if_false, List.mem_cons]
      rintro d (rfl | hd)
      · omega
      · exact ih (n / 10) (Nat.div_lt_self (Nat.pos_of_ne_zero h) (by norm_num)) d hd

theorem digitsRev_len_le {n k : Nat} (h : n < 10 ^ k) : (digitsRev n).length ≤ k := by
  induction k generalizing n with
  | zero =>
    have : n = 0 := by simpa using h
    simp [this, digitsRev, digitsRevAux]
  | succ k ih =>
    rw [digitsRev_eq]
    by_cases h0 : n = 0
    · simp [h0]
    · simp only [h0, if_false, List.length_cons]
      have : n / 10 < 10 ^ k := by
        rw [Nat.div_lt_iff_lt_mul (by norm_num)]
        calc n < 10 ^ (k + 1) := h
        _ = 10 ^ k * 10 := by ring
      exact Nat.succ_le_succ (ih this)

theorem digitsRev_len_gt {n k : Nat} (h : 10 ^ k ≤ n) : k < (digitsRev n).length := by
  induction k generalizing n with
  | zero =>
    have hn : n ≠ 0 := by omega
    rw [digitsRev_eq]
    simp [hn]
  | succ k ih =>
    have hn : n ≠ 0 := by
      have : 0 < 10 ^ (k + 1) := Nat.pos_pow_of_pos _ (by norm_num)
      omega
    rw [digitsRev_eq]
    simp only [hn, if_false, List.length_cons]
    have : 10 ^ k ≤ n / 10 := by
      rw [Nat.le_div_iff_mul_le (by norm_num)]
      calc 10 ^ k * 10 = 10 ^ (k + 1) := by ring
      _ ≤ n := h
    exact Nat.succ_lt_succ (ih this)

/-- One decimal digit as a character. -/
def digitChar : Nat → Char
  | 0 => '0' | 1 => '1' | 2 => '2' | 3 => '3' | 4 => '4'
  | 5 => '5' | 6 => '6' | 7 => '7' | 8 => '8' | _ => '9'

/-- Numeric value of a digit character. -/
def charVal (c : Char) : Nat := c.toNat - 48

theorem charVal_digitChar {d : Nat} (h : d < 10) : charVal (digitChar d) = d := by
  interval_cases d <;> decide

theorem digitChar_isDigit (d : Nat) : (digitChar d).isDigit = true := by
  rcases d with _ | _ | _ | _ | _ | _ | _ | _ | _ | _ <;> rfl

/-- Decimal rendering of a natural number (model of Rust's `{}` formatting
for unsigned integers). -/
def natRepr (n : Nat) : String :=
  if n = 0 then "0" else String.mk (((digitsRev n).map digitChar).reverse)

/-- Recover the value of a decimal digit string (big-endian). -/
def reprVal (s : String) : Nat := undigits ((s.data.map charVal).reverse)

theorem reprVal_natRepr (n : Nat) : reprVal (natRepr n) = n := by
  by_cases h : n = 0
  · simp [h, natRepr, reprVal, undigits, charVal]
  · simp only [natRepr, h, if_false, reprVal]
    rw [List.map_reverse, List.reverse_reverse, List.map_map]
    have : (digitsRev n).map (charVal ∘ digitChar) = (digitsRev n).map id := by
      apply List.map_congr_left
      intro d hd
      exact charVal_digitChar (digitsRev_lt_ten n d hd)
    rw [this, List.map_id, undigits_digitsRev]

theorem natRepr_inj {m n : Nat} (h : natRepr m = natRepr n) : m = n := by
  have := congrArg reprVal h
  rwa [reprVal_natRepr, reprVal_natRepr] at this

theorem natRepr_all_digit (n : Nat) : ∀ c ∈ (natRepr n).data, c.isDigit = true := by
  intro c hc
  by_cases h : n = 0
  · simp [natRepr, h] at hc
    subst hc; decide
  · simp only [natRepr, h, if_false] at hc
    rw [List.mem_reverse, List.mem_map] at hc
    obtain ⟨d, _, rfl⟩ := hc
    exact digitChar_isDigit d

theorem natRepr_length_le {n k : Nat} (h : n < 10 ^ k) (hk : 1 ≤ k) :
    (natRepr n).data.length ≤ k := by
  by_cases h0 : n = 0
  · simp [natRepr, h0]
    exact hk
  · simp only [natRepr, h0, if_false]
    simpa using digitsRev_len_le h

theorem natRepr_length_eq {n k : Nat} (hlo : 10 ^ k ≤ n) (hhi : n < 10 ^ (k + 1)) :
    (natRepr n).data.length = k + 1 := by
  have h0 : n ≠ 0 := by
    have : 0 < 10 ^ k := Nat.pos_pow_of_pos _ (by norm_num)
    omega
  simp only [natRepr, h0, if_false]
  simp only [List.length_reverse, List.length_map]
  have h1 := digitsRev_len_le hhi
  have h2 := digitsRev_len_gt hlo
  omega

/-- Zero-pad on the left to the given width (model of Rust's `{:0w}`
formatting for nonnegative integers). -/
def padLeft (w : Nat) (s : String) : String :=
  String.mk (List.replicate (w - s.data.length) '0' ++ s.data)

/-- Model of Rust's `{:02}` formatting of a nonnegative integer. -/
def pad2 (n : Nat) : String := padLeft 2 (natRepr n)

/-- Model of Rust's `{:03}` formatting of a nonnegative integer. -/
def pad3 (n : Nat) : String := padLeft 3 (natRepr n)

theorem pad2_length {n : Nat} (h : n < 100) : (pad2 n).data.length = 2 := by
  have hle : (natRepr n).data.length ≤ 2 := natRepr_length_le (by simpa using h) (by norm_num)
  simp only [pad2, padLeft]
  simp only [List.length_append, List.length_replicate]
  omega

theorem pad3_length {n : Nat} (h : n < 1000) : (pad3 n).data.length = 3 := by
  have hle : (natRepr n).data.length ≤ 3 := natRepr_length_le (by simpa using h) (by norm_num)
  simp only [pad3, padLeft]
  simp only [List.length_append, List.length_replicate]
  omega

theorem pad2_all_digit (n : Nat) : ∀ c ∈ (pad2 n).data, c.isDigit = true := by
  intro c hc
  simp only [pad2, padLeft] at hc
  rcases List.mem_append.mp hc with h | h
  · rw [List.eq_of_mem_replicate h]; decide
  · exact natRepr_all_digit n c h

theorem pad3_all_digit (n : Nat) : ∀ c ∈ (pad3 n).data, c.isDigit = true := by
  intro c hc
  simp only [pad3, padLeft] at hc
  rcases List.mem_append.mp hc with h | h
  · rw [List.eq_of_mem_replicate h]; decide
  · exact natRepr_all_digit n c h

/-! ### Date-time model

`NaiveDT` models `chrono::DateTime<Utc>` (equivalently a `NaiveDateTime`
interpreted as UTC) at second granularity; the pipeline keeps the
sub-second part separately as a millisecond count.  Sub-second nanoseconds
inside the `DateTime` value itself are never consulted by the code. -/

structure NaiveDT where
  year : Int
  month : Nat
  day : Nat
  hour : Nat
  minute : Nat
  second : Nat
deriving DecidableEq, Repr

/-- Gregorian leap-year rule (as used by chrono). -/
def isLeapYear (y : Int) : Bool :=
  (y % 4 == 0 && y % 100 != 0) || (y % 400 == 0)

/-- Number of days in a month of the proleptic Gregorian calendar. -/
def daysInMonth (y : Int) (m : Nat) : Nat :=
  if m = 2 then (if isLeapYear y then 29 else 28)
  else if m = 4 ∨ m = 6 ∨ m = 9 ∨ m = 11 then 30 else 31

/-- Validation performed by chrono when a parse result is turned into a
`NaiveDateTime` (`from_ymd_opt` / `from_hms_opt` semantics).  chrono's year
range for `NaiveDate` is `-262144 ..= 262143`.  A parsed second of 60 is
chrono's leap-second representation, whose `second()` accessor reports 59;
seconds beyond 60 are rejected. -/
def mkNaiveDT (y : Int) (mo d h mi s : Nat) : Option NaiveDT :=
  if 1 ≤ mo ∧ mo ≤ 12 ∧ 1 ≤ d ∧ d ≤ daysInMonth y mo ∧ h ≤ 23 ∧ mi ≤ 59 ∧ s ≤ 60
      ∧ -262144 ≤ y ∧ y ≤ 262143 then
    some ⟨y, mo, d, h, mi, if s = 60 then 59 else s⟩
  else none

/-! ### Character scanning (model of chrono's fixed-format parsing)

`NaiveDateTime::parse_from_str` with the two format strings used by
`exif.rs` (`"%Y-%m-%d %H:%M:%S"` and `"%Y:%m:%d %H:%M:%S"`) parses a
sequence of items: numeric items first skip leading whitespace and then
consume at most `width` decimal digits (width 4 for `%Y` unless an explicit
sign is present, width 2 for the other fields), literal separators must
match exactly, a whitespace item skips any amount of whitespace, and any
unconsumed input at the end is an error. -/

def trimL (cs : List Char) : List Char := cs.dropWhile Char.isWhitespace

/-- Model of Rust's `str::trim` (whitespace removed from both ends). -/
def trimBoth (cs : List Char) : List Char := (trimL (trimL cs).reverse).reverse

/-- Consume at most `maxD` leading decimal digits. -/
def takeDigits : Nat → List Char → List Char × List Char
  | 0, cs => ([], cs)
  | _ + 1, [] => ([], [])
  | k + 1, c :: cs =>
    if c.isDigit then
      let p := takeDigits k cs
      (c :: p.1, p.2)
    else ([], c :: cs)

/-- Value of a big-endian decimal digit list. -/
def digitsToNat (ds : List Char) : Nat := ds.foldl (fun a c => 10 * a + charVal c) 0

/-- Model of chrono's `scan::number(s, 1, maxD)`: at least one and at most
`maxD` digits (no whitespace skipping here). -/
def scanNum (maxD : Nat) (cs : List Char) : Option (Nat × List Char) :=
  let p := takeDigits maxD cs
  if p.1.isEmpty then none else some (digitsToNat p.1, p.2)

/-- Model of chrono's numeric-item parse for `%Y`: leading whitespace is
skipped, an explicit sign lifts the four-digit width limit. -/
def scanYear (cs : List Char) : Option (Int × List Char) :=
  match trimL cs with
  | [] => none
  | c :: rest =>
    if c = '-' then (scanNum rest.length rest).map (fun p => (-(p.1 : Int), p.2))
    else if c = '+' then (scanNum rest.length rest).map (fun p => ((p.1 : Int), p.2))
    else (scanNum 4 (c :: rest)).map (fun p => ((p.1 : Int), p.2))

/-- Consume one expected literal character. -/
def expectChar (c : Char) : List Char → Option (List Char)
  | d :: rest => if d = c then some rest else none
  | [] => none

/-- Model of `NaiveDateTime::parse_from_str(s, "%Y{sep}%m{sep}%d %H:%M:%S")`.
The whitespace item between `%d` and `%H` and `%H`'s own leading-whitespace
skip are merged into the single `trimL` before the hour field
(`dropWhile` is idempotent). -/
def parseFmt (sep : Char) (cs : List Char) : Option NaiveDT := do
  let p1 ← scanYear cs
  let cs ← expectChar sep p1.2
  let p2 ← scanNum 2 (trimL cs)
  let cs ← expectChar sep p2.2
  let p3 ← scanNum 2 (trimL cs)
  let p4 ← scanNum 2 (trimL p3.2)
  let cs ← expectChar ':' p4.2
  let p5 ← scanNum 2 (trimL cs)
  let cs ← expectChar ':' p5.2
  let p6 ← scanNum 2 (trimL cs)
  if p6.2.isEmpty then mkNaiveDT p1.1 p2.1 p3.1 p4.1 p5.1 p6.1 else none

/-- Format dispatch in `parse_timestamp_with_subseconds` (exif.rs:698-706):
a main part containing `'-'` is parsed with the ISO format, otherwise with
the EXIF `':'` format. -/
def parseMainPart (cs : List Char) : Option NaiveDT :=
  if cs.contains '-' then parseFmt '-' cs else parseFmt ':' cs

/-! ### The timestamp-string parser (`parse_timestamp_with_subseconds`, exif.rs:665-722) -/

/-- Model of Rust's `split(c)` on a string, as a list of chunks. -/
def splitOnChar (c : Char) : List Char → List (List Char)
  | [] => [[]]
  | d :: rest =>
    let r := splitOnChar c rest
    if d = c then [] :: r
    else
      match r with
      | [] => [[d]]
      | h :: t => (d :: h) :: t

/-- Split at the last `'.'`: (text before it, text after it).  Callers only
use this when the list contains a `'.'` (mirrors `rfind('.').unwrap()`). -/
def breakAtLastDot (cs : List Char) : List Char × List Char :=
  let r := cs.reverse
  (((r.dropWhile (fun c => c ≠ '.')).drop 1).reverse,
   (r.takeWhile (fun c => c ≠ '.')).reverse)

/-- Model of Rust's `trim_matches('"')`: every leading and trailing quote
character removed. -/
def trimQuotes (cs : List Char) : List Char :=
  (((cs.dropWhile (fun c => c = '\"')).reverse.dropWhile (fun c => c = '\"'))).reverse

/-- Model of Rust's `format!("{:0<3}", s)`: left-aligned in a field of
width 3, filled with `'0'` on the right. -/
def rightPad3 (cs : List Char) : List Char := cs ++ List.replicate (3 - cs.length) '0'

/-- Model of `str::parse::<u16>()`: optional leading `'+'`, then one or more
decimal digits, value at most 65535. -/
def parseU16 (cs : List Char) : Option Nat :=
  let body := if cs.head? = some '+' then cs.tail else cs
  if body ≠ [] ∧ body.all Char.isDigit ∧ digitsToNat body < 65536 then
    some (digitsToNat body)
  else none

def isSignChar (c : Char) : Bool := c = '+' ∨ c = '-'

/-- Core of `parse_timestamp_with_subseconds` on the character list of the
input string.  Faithfully mirrors exif.rs:665-722: trim; locate the
sub-second part after the last `'.'`, cutting it at a timezone sign if one
follows, otherwise requiring the string to split on `'.'` into exactly two
parts; parse the main part; truncate the sub-second text to its first three
characters, strip surrounding quotes, right-pad with zeros to width 3 and
parse as `u16`.  (Rust's `&s[..3]` is byte slicing and would panic on a
non-ASCII boundary; inputs considered here are ASCII.) -/
def parseTsCore (cs0 : List Char) : Option (NaiveDT × Nat) :=
  let cs := trimBoth cs0
  let msub : Option (List Char × List Char) :=
    if cs.contains '.' then
      let p := breakAtLastDot cs
      if p.2.any isSignChar then
        some (p.1, p.2.takeWhile (fun c => ¬ isSignChar c))
      else
        match splitOnChar '.' cs with
        | [a, b] => some (a, b)
        | _ => none
    else some (cs, ['0'])
  match msub with
  | none => none
  | some (mainPart, subsec) =>
    match parseMainPart mainPart with
    | none => none
    | some dt =>
      let s1 := if subsec.length > 3 then subsec.take 3 else subsec
      let s2 := trimQuotes s1
      match parseU16 (rightPad3 s2) with
      | none => none
      | some ms => some (dt, ms)

/-- `ExifProcessor::parse_timestamp_with_subseconds` (exif.rs:665-722),
returning `none` where the Rust function returns an error. -/
def parse_timestamp_with_subseconds (s : String) : Option (NaiveDT × Nat) :=
  parseTsCore s.data

/-! ### Timestamp resolution from a metadata bag (exif.rs:455-573)

A metadata bag (`HashMap<String, String>`, unique keys) is modelled as an
association list; `mget` is `HashMap::get`. -/

def mget : List (String × String) → String → Option String
  | [], _ => none
  | (k, v) :: rest, key => if k = key then some v else mget rest key

/-- Model of `str::starts_with` on character lists (needle, haystack). -/
def startsWithL : List Char → List Char → Bool
  | [], _ => true
  | _ :: _, [] => false
  | a :: as, b :: bs => a = b && startsWithL as bs

/-- Model of `str::contains(&str)` on character lists (haystack, needle). -/
def containsStr : List Char → List Char → Bool
  | [], n => n.isEmpty
  | c :: rest, n => startsWithL n (c :: rest) || containsStr rest n

/-- `ExifProcessor::is_recent_timestamp` (exif.rs:729-736): a value parsing
to a year after 2024 is considered a suspicious filesystem date. -/
def is_recent_timestamp (s : String) : Bool :=
  match parse_timestamp_with_subseconds s with
  | some p => if p.1.year > 2024 then true else false
  | none => false

/-- Field loop shared by the video list and the photo fallback list
(exif.rs:485-507 and exif.rs:559-570): skip a field whose name contains
"File" when its value looks like a recent filesystem date, otherwise return
the first value that parses. -/
def tryFieldsWithFileCheck (m : List (String × String)) : List String → Option (NaiveDT × Nat)
  | [] => none
  | f :: rest =>
    match mget m f with
    | none => tryFieldsWithFileCheck m rest
    | some v =>
      if containsStr f.data "File".data && is_recent_timestamp v then
        tryFieldsWithFileCheck m rest
      else
        match parse_timestamp_with_subseconds v with
        | some r => some r
        | none => tryFieldsWithFileCheck m rest

/-- Pre-combined sub-second fields of `extract_photo_timestamp`
(exif.rs:515-519). -/
def pre_combined_fields : List String :=
  ["SubSecCreateDate", "SubSecDateTimeOriginal", "SubSecModifyDate"]

/-- Base/sub-second combinations of `extract_photo_timestamp`
(exif.rs:530-534). -/
def combination_fields : List (String × String) :=
  [("DateTimeOriginal", "SubSecTimeOriginal"),
   ("ModifyDate", "SubSecTime"),
   ("DateTimeDigitized", "SubSecTimeDigitized")]

/-- Fallback base-timestamp fields of `extract_photo_timestamp`
(exif.rs:548-557).  Note: the plain "CreateDate" field named by the doc
comment (exif.rs:446, "CreateDate (LAST RESORT)") is absent. -/
def fallback_fields : List String :=
  ["DateTimeOriginal", "CreationDate", "Create Date", "MakerNotes:CreateDate",
   "ModifyDate", "Modify Date", "MakerNotes:ModifyDate", "DateTimeDigitized"]

/-- Video timestamp fields of `extract_video_timestamp` (exif.rs:470-483). -/
def video_timestamp_fields : List String :=
  ["DateTimeOriginal", "CreationDate", "MediaCreateDate", "TrackCreateDate",
   "Create Date", "MakerNotes:CreateDate", "MediaModifyDate", "TrackModifyDate",
   "Modify Date", "MakerNotes:ModifyDate", "NikonDateTime", "ModifyDate"]

/-- First stage of `extract_photo_timestamp` (exif.rs:521-527): the first
pre-combined field whose value parses wins. -/
def tryPreCombined (m : List (String × String)) : List String → Option (NaiveDT × Nat)
  | [] => none
  | f :: rest =>
    match mget m f with
    | none => tryPreCombined m rest
    | some v =>
      match parse_timestamp_with_subseconds v with
      | some r => some r
      | none => tryPreCombined m rest

/-- Second stage of `extract_photo_timestamp` (exif.rs:536-545): combine a
base timestamp with a zero-right-padded sub-second field through a literal
`'.'` and parse the concatenation. -/
def tryCombinations (m : List (String × String)) :
    List (String × String) → Option (NaiveDT × Nat)
  | [] => none
  | (bf, sf) :: rest =>
    match mget m bf, mget m sf with
    | some b, some sv =>
      let padded := String.mk (rightPad3 sv.data)
      let combined := b ++ "." ++ padded
      match parse_timestamp_with_subseconds combined with
      | some r => some r
      | none => tryCombinations m rest
    | _, _ => tryCombinations m rest

/-- `ExifProcessor::extract_photo_timestamp` (exif.rs:513-573). -/
def extract_photo_timestamp (m : List (String × String)) : Option (NaiveDT × Nat) :=
  match tryPreCombined m pre_combined_fields with
  | some r => some r
  | none =>
    match tryCombinations m combination_fields with
    | some r => some r
    | none => tryFieldsWithFileCheck m fallback_fields

/-- `ExifProcessor::extract_video_timestamp` (exif.rs:466-511). -/
def extract_video_timestamp (m : List (String × String)) : Option (NaiveDT × Nat) :=
  tryFieldsWithFileCheck m video_timestamp_fields

/-- `ExifProcessor::extract_best_timestamp` (exif.rs:455-464): a bag with a
"MediaCreateDate" or "MediaModifyDate" key is classified as video. -/
def extract_best_timestamp (m : List (String × String)) : Option (NaiveDT × Nat) :=
  if (mget m "MediaCreateDate").isSome || (mget m "MediaModifyDate").isSome then
    extract_video_timestamp m
  else
    extract_photo_timestamp m

/-- `ExifProcessor::_is_zero_timestamp` (exif.rs:724-726).  Dead code in the
repository: no call site exists, in particular `extract_photo_timestamp`
never applies it. -/
def _is_zero_timestamp (s : String) : Bool :=
  (s.data.filter (fun c => ¬ (c = ':' ∨ c = ' ' ∨ c = '0'))).isEmpty

/-! ### Filename generation (`FilenameGenerator::generate_filename`, naming.rs:23-63) -/

/-- The fixed English month abbreviations (naming.rs:32-35). -/
def month_names : List String :=
  ["Jan", "Feb", "Mar", "Apr", "May", "Jun",
   "Jul", "Aug", "Sep", "Oct", "Nov", "Dec"]

/-- Model of Rust's `{}` formatting of an `i32`. -/
def intRepr (i : Int) : String :=
  if i < 0 then "-" ++ natRepr i.natAbs else natRepr i.natAbs

/-- `month_names[(month_num - 1) as usize]` (naming.rs:36).  Rust panics on
an out-of-range index; `chrono`'s `month()` is always in `1..=12`, so the
panic is unreachable and the out-of-range default `""` is never produced
for a valid date. -/
def monthAbbrev (monthNum : Nat) : String := month_names.getD (monthNum - 1) ""

/-- The `base_filename` string of naming.rs:38-43. -/
def baseFilename (dt : NaiveDT) (ms : Nat) (ext : String) : String :=
  intRepr dt.year ++ pad2 dt.month ++ pad2 dt.day ++ "_" ++
    pad2 dt.hour ++ pad2 dt.minute ++ pad2 dt.second ++ "." ++ pad3 ms ++ "." ++ ext

/-- The directory part `{year}/{month:02}-{month_name}` of naming.rs:45. -/
def dirPart (dt : NaiveDT) : String :=
  intRepr dt.year ++ "/" ++ pad2 dt.month ++ "-" ++ monthAbbrev dt.month

/-- The unsuffixed `full_path` of naming.rs:45. -/
def canonicalPath (dt : NaiveDT) (ms : Nat) (ext : String) : String :=
  dirPart dt ++ "/" ++ baseFilename dt ms ext

/-- The suffixed candidate built in the tie-break loop (naming.rs:52-58). -/
def suffixedPath (dt : NaiveDT) (ms : Nat) (n : Nat) (ext : String) : String :=
  dirPart dt ++ "/" ++
    (intRepr dt.year ++ pad2 dt.month ++ pad2 dt.day ++ "_" ++
     pad2 dt.hour ++ pad2 dt.minute ++ pad2 dt.second ++ "." ++ pad3 ms ++ "-" ++
     natRepr n ++ "." ++ ext)

/-- The sequence of candidate paths tried by the tie-break loop: the
canonical path first, then the `-2`, `-3`, ... suffixed paths. -/
def tieCandidate (dt : NaiveDT) (ms : Nat) (ext : String) : Nat → String
  | 0 => canonicalPath dt ms ext
  | k + 1 => suffixedPath dt ms (k + 2) ext

/-- The `while existing_files.contains(&final_path)` loop of naming.rs:48-60,
walking the candidate sequence from index `i` with the given amount of fuel.
The Rust loop is unbounded; `resolveTie_mem` below shows that
`existing.length + 1` fuel always suffices to reach a free candidate, so the
fuelled model computes the same result as the loop. -/
def resolveTie (existing : List String) (c : Nat → String) : Nat → Nat → String
  | 0, i => c i
  | fuel + 1, i => if c i ∈ existing then resolveTie existing c fuel (i + 1) else c i

/-- `FilenameGenerator::generate_filename` (naming.rs:23-63).  `dt` is the
`DateTime<Utc>`, `milliseconds` the `u16` sub-second count, and
`existing_files` the claimed-name slice used for tie-breaking. -/
def generate_filename (dt : NaiveDT) (milliseconds : Nat) (extension : String)
    (existing_files : List String) : String :=
  resolveTie existing_files (tieCandidate dt milliseconds extension)
    (existing_files.length + 1) 0

/-! ### Properties of the tie-break loop -/

theorem ne_dot_of_isDigit {c : Char} (h : c.isDigit = true) : c ≠ '.' := by
  intro heq
  subst heq
  exact absurd h (by decide)

/-- Stripping an identical `'.'`-terminated suffix from two dot-free lists. -/
theorem dotfree_append_cancel :
    ∀ (xs ys zs : List Char), (∀ c ∈ xs, c ≠ '.') → (∀ c ∈ ys, c ≠ '.') →
      xs ++ '.' :: zs = ys ++ '.' :: zs → xs = ys
  | [], [], _, _, _, _ => rfl
  | [], y :: ys, zs, _, hy, h => by
    simp only [List.nil_append, List.cons_append, List.cons.injEq] at h
    exact absurd h.1.symm (hy y (by simp))
  | x :: xs, [], zs, hx, _, h => by
    simp only [List.nil_append, List.cons_append, List.cons.injEq] at h
    exact absurd h.1 (hx x (by simp))
  | x :: xs, y :: ys, zs, hx, hy, h => by
    simp only [List.cons_append, List.cons.injEq] at h
    have := dotfree_append_cancel xs ys zs
      (fun c hc => hx c (List.mem_cons_of_mem _ hc))
      (fun c hc => hy c (List.mem_cons_of_mem _ hc)) h.2
    rw [h.1, this]

/-- The common prefix of all candidate paths: everything up to and including
the millisecond field. -/
def pathStem (dt : NaiveDT) (ms : Nat) : String :=
  dirPart dt ++ "/" ++
    (intRepr dt.year ++ pad2 dt.month ++ pad2 dt.day ++ "_" ++
     pad2 dt.hour ++ pad2 dt.minute ++ pad2 dt.second ++ "." ++ pad3 ms)

theorem canonicalPath_decomp (dt : NaiveDT) (ms : Nat) (ext : String) :
    (canonicalPath dt ms ext).data
      = (pathStem dt ms).data ++ '.' :: ext.data := by
  simp [canonicalPath, pathStem, baseFilename, String.data_append, List.append_assoc]

theorem suffixedPath_decomp (dt : NaiveDT) (ms : Nat) (n : Nat) (ext : String) :
    (suffixedPath dt ms n ext).data
      = (pathStem dt ms).data ++ '-' :: ((natRepr n).data ++ '.' :: ext.data) := by
  simp [suffixedPath, pathStem, String.data_append, List.append_assoc]

theorem tieCandidate_inj (dt : NaiveDT) (ms : Nat) (ext : String) :
    Function.Injective (tieCandidate dt ms ext) := by
  intro a b h
  match a, b with
  | 0, 0 => rfl
  | 0, k + 1 =>
    exfalso
    have hd := congrArg String.data h
    rw [show tieCandidate dt ms ext 0 = canonicalPath dt ms ext from rfl,
      show tieCandidate dt ms ext (k + 1) = suffixedPath dt ms (k + 2) ext from rfl,
      canonicalPath_decomp, suffixedPath_decomp] at hd
    have := List.append_cancel_left hd
    simp at this
  | k + 1, 0 =>
    exfalso
    have hd := congrArg String.data h
    rw [show tieCandidate dt ms ext 0 = canonicalPath dt ms ext from rfl,
      show tieCandidate dt ms ext (k + 1) = suffixedPath dt ms (k + 2) ext from rfl,
      canonicalPath_decomp, suffixedPath_decomp] at hd
    have := List.append_cancel_left hd
    simp at this
  | a + 1, b + 1 =>
    have hd := congrArg String.data h
    rw [show tieCandidate dt ms ext (a + 1) = suffixedPath dt ms (a + 2) ext from rfl,
      show tieCandidate dt ms ext (b + 1) = suffixedPath dt ms (b + 2) ext from rfl,
      suffixedPath_decomp, suffixedPath_decomp] at hd
    have h2 := List.append_cancel_left hd
    simp only [List.cons.injEq, true_and] at h2
    have h3 := dotfree_append_cancel _ _ _
      (fun c hc => ne_dot_of_isDigit (natRepr_all_digit _ c hc))
      (fun c hc => ne_dot_of_isDigit (natRepr_all_digit _ c hc)) h2
    have h4 : natRepr (a + 2) = natRepr (b + 2) := by
      have := congrArg String.mk h3
      simpa using this
    have := natRepr_inj h4
    omega

/-- Among the first `existing.length + 1` candidates of an injective
candidate sequence, at least one is not claimed. -/
theorem exists_free_candidate (existing : List String) (c : Nat → String)
    (hinj : Function.Injective c) :
    ∃ k, k ≤ existing.length ∧ c k ∉ existing := by
  by_contra hcon
  push_neg at hcon
  have hsub : (Finset.range (existing.length + 1)).image c ⊆ existing.toFinset := by
    intro x hx
    rw [Finset.mem_image] at hx
    obtain ⟨k, hk, rfl⟩ := hx
    rw [Finset.mem_range] at hk
    rw [List.mem_toFinset]
    exact hcon k (by omega)
  have hcard := Finset.card_le_card hsub
  rw [Finset.card_image_of_injective _ hinj, Finset.card_range] at hcard
  have := List.toFinset_card_le existing
  omega

/-- The fuelled loop run from index `i` returns the first free candidate at
or after `i`, provided some candidate within the fuel allowance is free. -/
theorem resolveTie_spec (existing : List String) (c : Nat → String) :
    ∀ (fuel i : Nat), (∃ k, k ≤ fuel ∧ c (i + k) ∉ existing) →
      ∃ m, m ≤ fuel ∧ resolveTie existing c fuel i = c (i + m) ∧
        c (i + m) ∉ existing ∧ ∀ j, j < m → c (i + j) ∈ existing := by
  intro fuel
  induction fuel with
  | zero =>
    intro i hk
    obtain ⟨k, hk0, hfree⟩ := hk
    have : k = 0 := by omega
    subst this
    exact ⟨0, le_refl 0, rfl, hfree, by omega⟩
  | succ fuel ih =>
    intro i hk
    by_cases hmem : c i ∈ existing
    · obtain ⟨k, hk0, hfree⟩ := hk
      have hkpos : k ≠ 0 := by
        intro h0; subst h0; simp at hfree; exact hfree hmem
      have hrec : ∃ k, k ≤ fuel ∧ c (i + 1 + k) ∉ existing := by
        refine ⟨k - 1, by omega, ?_⟩
        have : i + 1 + (k - 1) = i + k := by omega
        rw [this]; exact hfree
      obtain ⟨m, hm, heq, hfm, hall⟩ := ih (i + 1) hrec
      refine ⟨m + 1, by omega, ?_, ?_, ?_⟩
      · simp only [resolveTie, hmem, if_true]
        rw [heq]; congr 1; omega
      · have : i + (m + 1) = i + 1 + m := by omega
        rw [this]; exact hfm
      · intro j hj
        match j with
        | 0 => simpa using hmem
        | j + 1 =>
          have : i + (j + 1) = i + 1 + j := by omega
          rw [this]; exact hall j (by omega)
    · exact ⟨0, by omega, by simp [resolveTie, hmem], by simpa using hmem, by omega⟩

/-- The result of `generate_filename` is the first free candidate. -/
theorem generate_filename_spec (dt : NaiveDT) (ms : Nat) (ext : String)
    (existing : List String) :
    ∃ m, generate_filename dt ms ext existing = tieCandidate dt ms ext m ∧
      tieCandidate dt ms ext m ∉ existing ∧
      ∀ j, j < m → tieCandidate dt ms ext j ∈ existing := by
  obtain ⟨k, hk, hfree⟩ :=
    exists_free_candidate existing (tieCandidate dt ms ext) (tieCandidate_inj dt ms ext)
  obtain ⟨m, hm, heq, hfm, hall⟩ :=
    resolveTie_spec existing (tieCandidate dt ms ext) (existing.length + 1) 0
      ⟨k, by omega, by simpa using hfree⟩
  refine ⟨m, ?_, ?_, ?_⟩
  · simpa [generate_filename] using heq
  · simpa using hfm
  · intro j hj
    simpa using hall j hj

/-- The generated path is never a member of the claimed list. -/
theorem generate_filename_not_mem (dt : NaiveDT) (ms : Nat) (ext : String)
    (existing : List String) :
    generate_filename dt ms ext existing ∉ existing := by
  obtain ⟨m, heq, hfm, _⟩ := generate_filename_spec dt ms ext existing
  rw [heq]; exact hfm

/-! ### Orchestration (file_ops.rs)

Paths are modelled as strings.  `FsEnv` supplies the outcome of every
system call the orchestrator makes: symlink detection, the two metadata
backends tried by `extract_exif_data`, target-existence checks, content
hashing (`ContentHasher::calculate_file_hash`), directory creation and the
move/copy/symlink operation (`perform_file_operation`, whose internal
cross-device fallback is summarised by its overall outcome).  Mutating
calls the code issues are additionally recorded as an `FsAction` trace. -/

structure ExifData where
  timestamp : NaiveDT
  milliseconds : Nat
  metadata : List (String × String)
deriving DecidableEq, Repr

structure AnalysisResult where
  file_path : String
  success : Bool
  error : Option String
  exif_data : Option ExifData
  new_filename : Option String
deriving DecidableEq, Repr

structure ProcessResult where
  file_path : String
  success : Bool
  renamed : Bool
  new_path : Option String
  error : Option String
deriving DecidableEq, Repr

inductive FsAction where
  | createDirAll (path : String)
  | fileOp (mode src tgt : String)
deriving DecidableEq, Repr

structure FsEnv where
  isSymlink : String → Bool
  meta1 : String → Option (List (String × String))
  meta2 : String → Option (List (String × String))
  pathExists : String → Bool
  hashOf : String → Option String
  mkdirResult : String → Option String
  opResult : String → String → Option String

/-- The part of a path after its last `'/'`. -/
def afterLastSlash (cs : List Char) : List Char :=
  (cs.reverse.takeWhile (fun c => c ≠ '/')).reverse

/-- Model of `Path::extension()`: the portion of the file name after its
last `'.'`, provided that dot is preceded by a nonempty stem. -/
def extensionOf (p : String) : Option String :=
  match afterLastSlash p.data with
  | [] => none
  | c0 :: rest =>
    if rest.contains '.' then
      some (String.mk ((rest.reverse.takeWhile (fun c => c ≠ '.')).reverse))
    else
      if c0 = '.' then none
      else match rest with
        | [] => none
        | _ => none

/-- ASCII model of `str::to_lowercase`. -/
def lowerStr (s : String) : String := String.mk (s.data.map Char.toLower)

/-- `get_file_extension` (exif.rs:396-410 and the identical copy at
file_ops.rs:494-508): lowercase extension with the `%jpg`-style malformed
variants repaired, `""` when the path has no extension. -/
def get_file_extension (p : String) : String :=
  match extensionOf p with
  | some e =>
    let ext := lowerStr e
    if ext = "%jpg" ∨ ext = "%jpeg" then "jpg"
    else if ext = "%mov" then "mov"
    else if ext = "%mp4" then "mp4"
    else ext
  | none => ""

/-- One metadata backend attempt inside `extract_exif_data`: a backend
produces a metadata bag or fails, and a produced bag still fails the
attempt when `extract_best_timestamp` finds no timestamp in it. -/
def attemptExtract (mopt : Option (List (String × String))) : Option ExifData :=
  match mopt with
  | none => none
  | some m =>
    match extract_best_timestamp m with
    | some r => some ⟨r.1, r.2, m⟩
    | none => none

/-- `ExifProcessor::extract_exif_data` (exif.rs:285-324): the optimal
parser backend first, then the fast-exif-rs backend, first success wins;
both failing is a per-file error. -/
def extract_exif_data (env : FsEnv) (p : String) : Option ExifData :=
  match attemptExtract (env.meta1 p) with
  | some d => some d
  | none => attemptExtract (env.meta2 p)

/-- `ExifProcessor::analyze_single_file` (exif.rs:345-393), the analyzer
used by `analyze_files_parallel`. -/
def analyze_single_file (env : FsEnv) (p : String) : AnalysisResult :=
  if env.isSymlink p then
    { file_path := p
      success := true
      error := some "Skipped symlink - cannot process symbolic links"
      exif_data := none
      new_filename := none }
  else
    match extract_exif_data env p with
    | some ed =>
      { file_path := p
        success := true
        error := none
        exif_data := some ed
        new_filename := some (generate_filename ed.timestamp ed.milliseconds
          (get_file_extension p) []) }
    | none =>
      { file_path := p
        success := false
        error := some ("No valid EXIF timestamp found for: " ++ p)
        exif_data := none
        new_filename := none }

/-- `Path::join` for the relative paths produced by the generator. -/
def joinPath (a b : String) : String := a ++ "/" ++ b

/-- The `files_to_hash` list of `build_content_hash_index`
(file_ops.rs:248-264): for every successful analysis whose provisional
target already exists, the source path and that target path. -/
def filesToHash (env : FsEnv) (outDir : String) : List AnalysisResult → List String
  | [] => []
  | r :: rest =>
    (if r.success then
      match r.exif_data, r.new_filename with
      | some _, some fn =>
        let t := joinPath outDir fn
        if env.pathExists t then [r.file_path, t] else []
      | _, _ => []
    else []) ++ filesToHash env outDir rest

/-- `FileProcessor::build_content_hash_index` (file_ops.rs:242-303): hash
every path in `files_to_hash`, skipping paths whose hash computation fails.
The parallel accumulation order is immaterial for the association list's
lookup domain. -/
def build_content_hash_index (env : FsEnv) (outDir : String)
    (results : List AnalysisResult) : List (String × String) :=
  (filesToHash env outDir results).foldr
    (fun p acc =>
      match env.hashOf p with
      | some h => (p, h) :: acc
      | none => acc) []

/-- Directory part of a path (model of `Path::parent` for the joined target
paths, which always contain a `'/'`). -/
def dirnameOf (p : String) : String :=
  String.mk (((p.data.reverse.dropWhile (fun c => c ≠ '/')).drop 1).reverse)

/-- The placement tail of `process_single_file_rename` (file_ops.rs:446-491):
directory creation, the rename-to-itself check, and the mode-dependent file
operation, registering the final name into the bucket's claimed list only
on a successful operation. -/
def placeFile (env : FsEnv) (mode : String) (existing : List String)
    (src finalName target : String) : ProcessResult × List FsAction × List String :=
  let parent := dirnameOf target
  match env.mkdirResult parent with
  | some e =>
    (⟨src, false, false, none, some ("Failed to create directory: " ++ e)⟩,
     [FsAction.createDirAll parent], existing)
  | none =>
    if target = src then
      (⟨src, true, false, none, some "No rename needed"⟩,
       [FsAction.createDirAll parent], existing)
    else
      match env.opResult src target with
      | none =>
        (⟨src, true, true, some target, none⟩,
         [FsAction.createDirAll parent, FsAction.fileOp mode src target],
         existing ++ [finalName])
      | some e =>
        (⟨src, false, false, none,
           some ("Failed to " ++ mode ++ " file: " ++ e)⟩,
         [FsAction.createDirAll parent, FsAction.fileOp mode src target],
         existing)

/-- `FileProcessor::process_single_file_rename` (file_ops.rs:387-492).
Returns the per-file result, the filesystem actions attempted, and the
updated claimed-name list of the current directory bucket. -/
def process_single_file_rename (env : FsEnv) (hashIndex : List (String × String))
    (outDir mode : String) (existing : List String) (ar : AnalysisResult) :
    ProcessResult × List FsAction × List String :=
  if ar.success = false then
    (⟨ar.file_path, false, false, none, ar.error⟩, [], existing)
  else
    match ar.exif_data, ar.new_filename with
    | some ed, some _ =>
      let finalName := generate_filename ed.timestamp ed.milliseconds
        (get_file_extension ar.file_path) existing
      let target := joinPath outDir finalName
      let isDup := env.pathExists target &&
        (match mget hashIndex ar.file_path, mget hashIndex target with
         | some h1, some h2 => h1 == h2
         | _, _ => false)
      if isDup then
        (⟨ar.file_path, true, false, none, some "Content duplicate"⟩, [], existing)
      else
        placeFile env mode existing ar.file_path finalName target
    | _, _ =>
      (⟨ar.file_path, false, false, none, some "Missing EXIF data or filename"⟩,
       [], existing)

/-- Model of chrono's `%Y` formatting: zero-padded to four digits, sign in
front for negative years. -/
def fmtY4 (y : Int) : String :=
  if y < 0 then "-" ++ padLeft 4 (natRepr y.natAbs) else padLeft 4 (natRepr y.natAbs)

/-- The `{year}/{month}-{monthname}` bucket key of file_ops.rs:325-327
(`timestamp.format("%Y")` and `timestamp.format("%m-%b")`), joined under
the output directory. -/
def groupKey (outDir : String) (ed : ExifData) : String :=
  joinPath outDir (fmtY4 ed.timestamp.year ++ "/" ++ pad2 ed.timestamp.month ++ "-" ++
    monthAbbrev ed.timestamp.month)

/-- Append a result to its bucket, preserving first-occurrence bucket order
(the `grouped_results.entry(..).or_insert_with(..).push(..)` of
file_ops.rs:328; Rust's `HashMap` iteration order is arbitrary, and every
property proved below is insensitive to the bucket order). -/
def insertGrouped (key : String) (r : AnalysisResult) :
    List (String × List AnalysisResult) → List (String × List AnalysisResult)
  | [] => [(key, [r])]
  | (k, rs) :: rest =>
    if k = key then (k, rs ++ [r]) :: rest
    else (k, rs) :: insertGrouped key r rest

/-- The grouping loop of file_ops.rs:322-330: results carrying EXIF data
are partitioned by bucket key; results without EXIF data (failed analyses
and skipped symlinks) are dropped. -/
def groupResults (outDir : String) (results : List AnalysisResult)
    (acc : List (String × List AnalysisResult)) : List (String × List AnalysisResult) :=
  match results with
  | [] => acc
  | r :: rest =>
    match r.exif_data with
    | some ed => groupResults outDir rest (insertGrouped (groupKey outDir ed) r acc)
    | none => groupResults outDir rest acc

/-- Sequential processing of one bucket (file_ops.rs:343-357): files in
order, threading the bucket's claimed-name list. -/
def processGroup (env : FsEnv) (hashIndex : List (String × String))
    (outDir mode : String) : List AnalysisResult → List String → List ProcessResult
  | [], _ => []
  | r :: rest, existing =>
    let t := process_single_file_rename env hashIndex outDir mode existing r
    t.1 :: processGroup env hashIndex outDir mode rest t.2.2

/-- `FileProcessor::rename_files_parallel` (file_ops.rs:305-385): group by
bucket, process each bucket sequentially with a fresh claimed-name list,
and concatenate the buckets' results. -/
def rename_files_parallel (env : FsEnv) (results : List AnalysisResult)
    (hashIndex : List (String × String)) (outDir mode : String) : List ProcessResult :=
  ((groupResults outDir results []).map
    (fun g => processGroup env hashIndex outDir mode g.2 [])).flatten

/-- `FileProcessor::process_files` (file_ops.rs:137-160): analyze all files
(in input order), build the selective hash index, then place.  Output-directory
canonicalization is modelled as the identity on the given path. -/
def process_files (env : FsEnv) (files : List String) (outDir mode : String) :
    List ProcessResult :=
  let analysisResults := files.map (analyze_single_file env)
  let hashIndex := build_content_hash_index env outDir analysisResults
  rename_files_parallel env analysisResults hashIndex outDir mode

/-! ### Evaluation lemmas for the scanner -/

theorem not_ws_of_isDigit {c : Char} (h : c.isDigit = true) : c.isWhitespace = false := by
  cases hw : c.isWhitespace
  · rfl
  · exfalso
    have hw2 : c = ' ' ∨ c = '\t' ∨ c = '\x0d' ∨ c = '\n' := by
      simpa [Char.isWhitespace, or_assoc] using hw
    rcases hw2 with h1 | h1 | h1 | h1 <;> (subst h1; exact absurd h (by decide))

theorem ne_of_isDigit {c x : Char} (h : c.isDigit = true) (hx : x.isDigit = false) :
    c ≠ x := by
  intro he; subst he; rw [h] at hx; cases hx

theorem trimL_eq_self {cs : List Char}
    (h : ∀ c, cs.head? = some c → c.isWhitespace = false) : trimL cs = cs := by
  cases cs with
  | nil => rfl
  | cons c t =>
    simp only [trimL, List.dropWhile_cons, h c rfl]
    simp

theorem trimBoth_eq_self {cs : List Char}
    (h1 : ∀ c, cs.head? = some c → c.isWhitespace = false)
    (h2 : ∀ c, cs.getLast? = some c → c.isWhitespace = false) : trimBoth cs = cs := by
  unfold trimBoth
  rw [trimL_eq_self h1]
  rw [trimL_eq_self (by
    intro c hc
    rw [List.head?_reverse] at hc
    exact h2 c hc)]
  exact List.reverse_reverse cs

theorem takeDigits_exact {ds rest : List Char} (h : ∀ c ∈ ds, c.isDigit = true) :
    takeDigits ds.length (ds ++ rest) = (ds, rest) := by
  induction ds with
  | nil => rfl
  | cons d ds ih =>
    have ih2 := ih (fun c hc => h c (List.mem_cons_of_mem _ hc))
    simp only [List.length_cons, List.cons_append, takeDigits,
      h d (List.mem_cons_self d ds), if_true, List.append_eq]
    rw [ih2]

theorem scanNum_exact {ds rest : List Char} (h : ∀ c ∈ ds, c.isDigit = true)
    (hne : ds ≠ []) :
    scanNum ds.length (ds ++ rest) = some (digitsToNat ds, rest) := by
  simp only [scanNum, takeDigits_exact h]
  simp [hne]

theorem digitsToNat_append (A B : List Char) :
    digitsToNat (A ++ B) = B.foldl (fun a c => 10 * a + charVal c) (digitsToNat A) := by
  simp [digitsToNat, List.foldl_append]

theorem undigits_concat (xs : List Nat) (v : Nat) :
    undigits (xs ++ [v]) = undigits xs + v * 10 ^ xs.length := by
  induction xs with
  | nil => simp [undigits]
  | cons x xs ih =>
    simp only [List.cons_append, undigits, List.length_cons, List.append_eq, ih]
    ring

theorem digitsToNat_eq_reprVal (ds : List Char) :
    digitsToNat ds = undigits ((ds.map charVal).reverse) := by
  induction ds using List.reverseRecOn with
  | nil => rfl
  | append_singleton ds c ih =>
    rw [digitsToNat_append]
    simp only [List.foldl_cons, List.foldl_nil, List.map_append, List.map_cons,
      List.map_nil, List.reverse_append, List.reverse_cons, List.reverse_nil,
      List.nil_append, List.cons_append, undigits]
    rw [← ih]
    ring

theorem digitsToNat_replicate_zero (z : Nat) (ds : List Char) :
    digitsToNat (List.replicate z '0' ++ ds) = digitsToNat ds := by
  induction z with
  | zero => simp
  | succ z ih =>
    rw [List.replicate_succ]
    simpa [digitsToNat, charVal] using ih

theorem digitsToNat_natRepr (n : Nat) : digitsToNat (natRepr n).data = n := by
  rw [digitsToNat_eq_reprVal]
  exact reprVal_natRepr n

theorem digitsToNat_padLeft (w n : Nat) : digitsToNat (padLeft w (natRepr n)).data = n := by
  simp only [padLeft]
  rw [digitsToNat_replicate_zero, digitsToNat_natRepr]

theorem digitsToNat_lt_aux (ds : List Char) (h : ∀ c ∈ ds, c.isDigit = true) :
    ∀ acc, ds.foldl (fun a c => 10 * a + charVal c) acc < (acc + 1) * 10 ^ ds.length := by
  induction ds with
  | nil => intro acc; simp
  | cons d ds ih =>
    intro acc
    simp only [List.foldl_cons, List.length_cons]
    have hd : charVal d ≤ 9 := by
      have := h d (List.mem_cons_self d ds)
      revert this
      simp only [Char.isDigit, charVal]
      intro hdig
      simp only [Bool.and_eq_true, decide_eq_true_eq] at hdig
      have h57 : d.toNat ≤ 57 := by
        have := hdig.2
        simpa [Char.le_def, Char.toNat] using this
      omega
    calc List.foldl (fun a c => 10 * a + charVal c) (10 * acc + charVal d) ds
        < (10 * acc + charVal d + 1) * 10 ^ ds.length :=
          ih (fun c hc => h c (List.mem_cons_of_mem _ hc)) _
      _ ≤ (10 * acc + 10) * 10 ^ ds.length := by
          apply Nat.mul_le_mul_right
          omega
      _ = (acc + 1) * 10 ^ (ds.length + 1) := by ring

theorem digitsToNat_lt (ds : List Char) (h : ∀ c ∈ ds, c.isDigit = true) :
    digitsToNat ds < 10 ^ ds.length := by
  have := digitsToNat_lt_aux ds h 0
  simpa [digitsToNat] using this

theorem padLeft_all_digit {s : String} (w : Nat)
    (h : ∀ c ∈ s.data, c.isDigit = true) :
    ∀ c ∈ (padLeft w s).data, c.isDigit = true := by
  intro c hc
  simp only [padLeft] at hc
  rcases List.mem_append.mp hc with h1 | h1
  · rw [List.eq_of_mem_replicate h1]; decide
  · exact h c h1

theorem padLeft_length {s : String} {w : Nat} (h : s.data.length ≤ w) :
    (padLeft w s).data.length = w := by
  simp only [padLeft]
  simp only [List.length_append, List.length_replicate]
  omega

theorem padLeft_ne_nil {s : String} {w : Nat} (hw : 1 ≤ w) :
    (padLeft w s).data ≠ [] := by
  intro h
  have := congrArg List.length h
  simp only [padLeft, List.length_append, List.length_replicate, List.length_nil] at this
  omega

/-! ### Symbolic evaluation of the parser on canonically shaped inputs -/

theorem contains_eq_false_of_not_mem {α : Type} [BEq α] [LawfulBEq α]
    {c : α} {l : List α} (h : c ∉ l) : l.contains c = false := by
  cases hc : l.contains c
  · rfl
  · exact absurd (List.elem_iff.mp hc) h

theorem contains_eq_true_of_mem {α : Type} [BEq α] [LawfulBEq α]
    {c : α} {l : List α} (h : c ∈ l) : l.contains c = true := List.elem_iff.mpr h

theorem trimL_cons_ws {c : Char} {cs : List Char} (h : c.isWhitespace = true) :
    trimL (c :: cs) = trimL cs := by
  simp [trimL, List.dropWhile_cons, h]

theorem trimL_append_digits {X r : List Char} (hne : X ≠ [])
    (hdig : ∀ c ∈ X, c.isDigit = true) : trimL (X ++ r) = X ++ r := by
  apply trimL_eq_self
  intro c hc
  rw [List.head?_append_of_ne_nil X hne] at hc
  exact not_ws_of_isDigit (hdig c (List.mem_of_mem_head? hc))

theorem scanYear_digits {Y r : List Char} (hlen : Y.length = 4)
    (hdig : ∀ c ∈ Y, c.isDigit = true) :
    scanYear (Y ++ r) = some ((digitsToNat Y : Int), r) := by
  obtain ⟨c, Y', rfl⟩ : ∃ c Y', Y = c :: Y' := by
    cases Y with
    | nil => simp at hlen
    | cons c Y' => exact ⟨c, Y', rfl⟩
  have hc := hdig c (by simp)
  have htrim := trimL_append_digits (r := r) (by simp) hdig
  simp only [List.cons_append] at htrim
  simp only [scanYear, List.cons_append, htrim]
  rw [if_neg (ne_of_isDigit hc (by decide)), if_neg (ne_of_isDigit hc (by decide))]
  rw [show c :: (Y' ++ r) = (c :: Y') ++ r from rfl,
    show (4 : Nat) = (c :: Y').length from hlen.symm,
    scanNum_exact hdig (by simp)]
  rfl

theorem scanNum_pad2 {X r : List Char} (hlen : X.length = 2)
    (hdig : ∀ c ∈ X, c.isDigit = true) :
    scanNum 2 (trimL (X ++ r)) = some (digitsToNat X, r) := by
  have hne : X ≠ [] := by intro h; rw [h] at hlen; simp at hlen
  rw [trimL_append_digits hne hdig, show (2 : Nat) = X.length from hlen.symm,
    scanNum_exact hdig hne]

theorem expectChar_cons (c : Char) (rest : List Char) :
    expectChar c (c :: rest) = some rest := by
  simp [expectChar]

/-- Characters of a canonically shaped timestamp string
`YYYY{sep}MM{sep}DD HH:MM:SS` built from numeric fields. -/
def mkTsChars (sep : Char) (y mo d h mi s : Nat) : List Char :=
  (padLeft 4 (natRepr y)).data ++ sep ::
    ((pad2 mo).data ++ sep ::
      ((pad2 d).data ++ ' ' ::
        ((pad2 h).data ++ ':' ::
          ((pad2 mi).data ++ ':' :: (pad2 s).data))))

theorem pad4_length {y : Nat} (hy : y ≤ 9999) :
    (padLeft 4 (natRepr y)).data.length = 4 :=
  padLeft_length (natRepr_length_le (by omega) (by norm_num))

theorem parseFmt_mkTs (sep : Char) (y mo d h mi s : Nat)
    (hy : y ≤ 9999) (hmo : mo ≤ 99) (hd : d ≤ 99)
    (hh : h ≤ 99) (hmi : mi ≤ 99) (hs : s ≤ 99) :
    parseFmt sep (mkTsChars sep y mo d h mi s) = mkNaiveDT (y : Int) mo d h mi s := by
  have h2 : ∀ n : Nat, n ≤ 99 → (pad2 n).data.length = 2 := fun n hn => pad2_length (by omega)
  have e1 := scanYear_digits (r := sep ::
    ((pad2 mo).data ++ sep ::
      ((pad2 d).data ++ ' ' ::
        ((pad2 h).data ++ ':' ::
          ((pad2 mi).data ++ ':' :: (pad2 s).data)))))
    (pad4_length hy) (padLeft_all_digit 4 (natRepr_all_digit y))
  have e2 := scanNum_pad2 (r := sep ::
    ((pad2 d).data ++ ' ' ::
      ((pad2 h).data ++ ':' ::
        ((pad2 mi).data ++ ':' :: (pad2 s).data))))
    (h2 mo hmo) (pad2_all_digit mo)
  have e3 := scanNum_pad2 (r := ' ' ::
    ((pad2 h).data ++ ':' ::
      ((pad2 mi).data ++ ':' :: (pad2 s).data)))
    (h2 d hd) (pad2_all_digit d)
  have e4 : scanNum 2 (trimL (' ' :: ((pad2 h).data ++ ':' ::
      ((pad2 mi).data ++ ':' :: (pad2 s).data))))
      = some (digitsToNat (pad2 h).data, ':' :: ((pad2 mi).data ++ ':' :: (pad2 s).data)) := by
    rw [trimL_cons_ws (by decide)]
    exact scanNum_pad2 (h2 h hh) (pad2_all_digit h)
  have e5 := scanNum_pad2 (r := ':' :: (pad2 s).data) (h2 mi hmi) (pad2_all_digit mi)
  have e6 : scanNum 2 (trimL ((pad2 s).data ++ ([] : List Char)))
      = some (digitsToNat (pad2 s).data, []) :=
    scanNum_pad2 (h2 s hs) (pad2_all_digit s)
  rw [List.append_nil] at e6
  have p2 : ∀ n : Nat, digitsToNat (pad2 n).data = n := fun n => digitsToNat_padLeft 2 n
  have p4 : digitsToNat (padLeft 4 (natRepr y)).data = y := digitsToNat_padLeft 4 y
  simp only [mkTsChars, parseFmt, e1, Option.bind_eq_bind, Option.some_bind,
    expectChar_cons, e2, e3, e4, e5, e6, List.isEmpty_nil, if_true, p2, p4]

theorem mkTsChars_classify (sep : Char) (y mo dd hh mi ss : Nat) :
    ∀ c ∈ mkTsChars sep y mo dd hh mi ss,
      c.isDigit = true ∨ c = sep ∨ c = ' ' ∨ c = ':' := by
  intro c hc
  simp only [mkTsChars, List.mem_append, List.mem_cons] at hc
  rcases hc with h | h | h | h | h | h | h | h | h | h | h
  · exact Or.inl (padLeft_all_digit 4 (natRepr_all_digit y) c h)
  · exact Or.inr (Or.inl h)
  · exact Or.inl (pad2_all_digit mo c h)
  · exact Or.inr (Or.inl h)
  · exact Or.inl (pad2_all_digit dd c h)
  · exact Or.inr (Or.inr (Or.inl h))
  · exact Or.inl (pad2_all_digit hh c h)
  · exact Or.inr (Or.inr (Or.inr h))
  · exact Or.inl (pad2_all_digit mi c h)
  · exact Or.inr (Or.inr (Or.inr h))
  · exact Or.inl (pad2_all_digit ss c h)

theorem mkTsChars_no_dash (y mo dd hh mi ss : Nat) :
    ('-' : Char) ∉ mkTsChars ':' y mo dd hh mi ss := by
  intro hm
  rcases mkTsChars_classify ':' y mo dd hh mi ss '-' hm with h | h | h | h
  · exact absurd h (by decide)
  · exact absurd h (by decide)
  · exact absurd h (by decide)
  · exact absurd h (by decide)

theorem mkTsChars_no_dot (sep : Char) (y mo dd hh mi ss : Nat) (hsep : sep ≠ '.') :
    ∀ c ∈ mkTsChars sep y mo dd hh mi ss, c ≠ '.' := by
  intro c hc
  rcases mkTsChars_classify sep y mo dd hh mi ss c hc with h | h | h | h
  · exact ne_dot_of_isDigit h
  · rw [h]; exact hsep
  · rw [h]; decide
  · rw [h]; decide

theorem mkTsChars_not_sign (sep : Char) (y mo dd hh mi ss : Nat)
    (hsep1 : sep ≠ '+') (hsep2 : sep ≠ '-') :
    ∀ c ∈ mkTsChars sep y mo dd hh mi ss, isSignChar c = false := by
  intro c hc
  rcases mkTsChars_classify sep y mo dd hh mi ss c hc with h | h | h | h
  · simp only [isSignChar, decide_eq_false_iff_not]
    rintro (rfl | rfl)
    · exact absurd h (by decide)
    · exact absurd h (by decide)
  · subst h
    simp only [isSignChar, decide_eq_false_iff_not]
    rintro (h2 | h2)
    · exact hsep1 h2
    · exact hsep2 h2
  · rw [h]; decide
  · rw [h]; decide

theorem parseMainPart_mkTs_colon (y mo dd hh mi ss : Nat)
    (hy : y ≤ 9999) (hmo : mo ≤ 99) (hd : dd ≤ 99)
    (hhr : hh ≤ 99) (hmi : mi ≤ 99) (hsr : ss ≤ 99) :
    parseMainPart (mkTsChars ':' y mo dd hh mi ss) = mkNaiveDT (y : Int) mo dd hh mi ss := by
  rw [parseMainPart, contains_eq_false_of_not_mem (mkTsChars_no_dash y mo dd hh mi ss)]
  simp only [Bool.false_eq_true, if_false]
  exact parseFmt_mkTs ':' y mo dd hh mi ss hy hmo hd hhr hmi hsr

theorem parseMainPart_mkTs_dash (y mo dd hh mi ss : Nat)
    (hy : y ≤ 9999) (hmo : mo ≤ 99) (hd : dd ≤ 99)
    (hhr : hh ≤ 99) (hmi : mi ≤ 99) (hsr : ss ≤ 99) :
    parseMainPart (mkTsChars '-' y mo dd hh mi ss) = mkNaiveDT (y : Int) mo dd hh mi ss := by
  have hmem : ('-' : Char) ∈ mkTsChars '-' y mo dd hh mi ss := by
    simp [mkTsChars]
  rw [parseMainPart, contains_eq_true_of_mem hmem, if_pos rfl]
  exact parseFmt_mkTs '-' y mo dd hh mi ss hy hmo hd hhr hmi hsr

/-! ### Splitting lemmas for the sub-second machinery -/

theorem takeWhile_append_all {p : Char → Bool} {A B : List Char}
    (h : ∀ c ∈ A, p c = true) :
    (A ++ B).takeWhile p = A ++ B.takeWhile p := by
  induction A with
  | nil => simp
  | cons a A ih =>
    simp only [List.cons_append, List.takeWhile_cons, h a (by simp), if_true]
    rw [ih (fun c hc => h c (List.mem_cons_of_mem _ hc))]

theorem dropWhile_append_all {p : Char → Bool} {A B : List Char}
    (h : ∀ c ∈ A, p c = true) :
    (A ++ B).dropWhile p = B.dropWhile p := by
  induction A with
  | nil => simp
  | cons a A ih =>
    simp only [List.cons_append, List.dropWhile_cons, h a (by simp), if_true]
    exact ih (fun c hc => h c (List.mem_cons_of_mem _ hc))

theorem takeWhile_cons_neg {p : Char → Bool} {c : Char} {B : List Char}
    (h : p c = false) : (c :: B).takeWhile p = [] := by
  simp [List.takeWhile_cons, h]

theorem dropWhile_cons_neg {p : Char → Bool} {c : Char} {B : List Char}
    (h : p c = false) : (c :: B).dropWhile p = c :: B := by
  simp [List.dropWhile_cons, h]

/-- `breakAtLastDot` on a string whose unique final dot separates a dot-free
tail from the prefix. -/
theorem breakAtLastDot_eq {A B : List Char} (hB : ∀ c ∈ B, c ≠ '.') :
    breakAtLastDot (A ++ '.' :: B) = (A, B) := by
  have hBrev : ∀ c ∈ B.reverse, (c ≠ '.' : Bool) = true := by
    intro c hc
    simpa using hB c (List.mem_reverse.mp hc)
  unfold breakAtLastDot
  simp only [List.reverse_append, List.reverse_cons, List.append_assoc,
    List.singleton_append]
  rw [takeWhile_append_all hBrev, dropWhile_append_all hBrev]
  rw [takeWhile_cons_neg (by decide), dropWhile_cons_neg (by decide)]
  simp

theorem splitOnChar_no_occur {B : List Char} (hB : ∀ c ∈ B, c ≠ '.') :
    splitOnChar '.' B = [B] := by
  induction B with
  | nil => rfl
  | cons b B ih =>
    have hb : b ≠ '.' := hB b (by simp)
    simp only [splitOnChar, hb, if_false]
    rw [ih (fun c hc => hB c (List.mem_cons_of_mem _ hc))]

theorem splitOnChar_single_dot {A B : List Char} (hA : ∀ c ∈ A, c ≠ '.')
    (hB : ∀ c ∈ B, c ≠ '.') :
    splitOnChar '.' (A ++ '.' :: B) = [A, B] := by
  induction A with
  | nil =>
    simp only [List.nil_append, splitOnChar, splitOnChar_no_occur hB]
    simp
  | cons a A ih =>
    have ha : a ≠ '.' := hA a (by simp)
    simp only [List.cons_append, splitOnChar, ha, if_false, List.append_eq]
    rw [ih (fun c hc => hA c (List.mem_cons_of_mem _ hc))]

theorem trimQuotes_eq_self {cs : List Char} (h : ∀ c ∈ cs, c ≠ '\"') :
    trimQuotes cs = cs := by
  have hdrop : ∀ (l : List Char), (∀ c ∈ l, c ≠ '\"') →
      l.dropWhile (fun c => c = '\"') = l := by
    intro l hl
    cases l with
    | nil => rfl
    | cons c t =>
      apply dropWhile_cons_neg
      simpa using hl c (by simp)
  unfold trimQuotes
  rw [hdrop cs h, hdrop cs.reverse (fun c hc => h c (List.mem_reverse.mp hc)),
    List.reverse_reverse]

/-! ### Evaluation of `parseTsCore` on the three input shapes -/

theorem isSignChar_eq_false_of_digit {c : Char} (h : c.isDigit = true) :
    isSignChar c = false := by
  simp only [isSignChar, decide_eq_false_iff_not]
  rintro (rfl | rfl)
  · exact absurd h (by decide)
  · exact absurd h (by decide)

theorem rightPad3_all_digit {cs : List Char} (h : ∀ c ∈ cs, c.isDigit = true) :
    ∀ c ∈ rightPad3 cs, c.isDigit = true := by
  intro c hc
  rcases List.mem_append.mp hc with h1 | h1
  · exact h c h1
  · rw [List.eq_of_mem_replicate h1]; decide

theorem rightPad3_length {cs : List Char} (h : cs.length ≤ 3) :
    (rightPad3 cs).length = 3 := by
  simp only [rightPad3, List.length_append, List.length_replicate]
  omega

/-- Evaluation of the millisecond tail of `parseTsCore` on an all-digit
sub-second chunk. -/
theorem parseU16_digits {cs : List Char} (hd : ∀ c ∈ cs, c.isDigit = true)
    (hne : cs ≠ []) (hlt : digitsToNat cs < 65536) :
    parseU16 cs = some (digitsToNat cs) := by
  have hhead : cs.head? ≠ some '+' := by
    intro hp
    have := hd '+' (List.mem_of_mem_head? (by rw [hp]; rfl))
    exact absurd this (by decide)
  simp only [parseU16, if_neg hhead]
  rw [if_pos ⟨hne, List.all_eq_true.mpr hd, hlt⟩]

theorem subsec_tail_eval {frac : List Char} (hfrac : ∀ c ∈ frac, c.isDigit = true) :
    parseU16 (rightPad3 (trimQuotes
      (if frac.length > 3 then frac.take 3 else frac)))
      = some (digitsToNat (rightPad3 (frac.take 3))) := by
  have hif : (if frac.length > 3 then frac.take 3 else frac) = frac.take 3 := by
    by_cases hl : frac.length > 3
    · rw [if_pos hl]
    · rw [if_neg hl, List.take_of_length_le (by omega)]
  rw [hif]
  have htake : ∀ c ∈ frac.take 3, c.isDigit = true :=
    fun c hc => hfrac c (List.take_subset 3 frac hc)
  rw [trimQuotes_eq_self (fun c hc => ne_of_isDigit (htake c hc) (by decide))]
  have hall := rightPad3_all_digit htake
  apply parseU16_digits hall
  · intro h
    have := congrArg List.length h
    rw [rightPad3_length (by simp [List.length_take])] at this
    simp at this
  · have := digitsToNat_lt _ hall
    rw [rightPad3_length (by simp [List.length_take])] at this
    omega

/-- `parseTsCore` on an input without any `'.'`: the whole (trimmed) string
is the main part and the millisecond value is 0. -/
theorem parseTsCore_nodot {cs : List Char} {dt : NaiveDT}
    (htrim : trimBoth cs = cs)
    (hnodot : ∀ c ∈ cs, c ≠ '.')
    (hdt : parseMainPart cs = some dt) :
    parseTsCore cs = some (dt, 0) := by
  have hcont : cs.contains '.' = false :=
    contains_eq_false_of_not_mem (fun hm => hnodot '.' hm rfl)
  simp only [parseTsCore, htrim, hcont, Bool.false_eq_true, if_false, hdt]
  rfl

/-- `parseTsCore` on `main ++ "." ++ frac` with an all-digit fraction. -/
theorem parseTsCore_frac {mainPart frac : List Char} {dt : NaiveDT}
    (htrim : trimBoth (mainPart ++ '.' :: frac) = mainPart ++ '.' :: frac)
    (hmain : ∀ c ∈ mainPart, c ≠ '.')
    (hfrac : ∀ c ∈ frac, c.isDigit = true)
    (hdt : parseMainPart mainPart = some dt) :
    parseTsCore (mainPart ++ '.' :: frac)
      = some (dt, digitsToNat (rightPad3 (frac.take 3))) := by
  have hfracdot : ∀ c ∈ frac, c ≠ '.' :=
    fun c hc => ne_of_isDigit (hfrac c hc) (by decide)
  have hcont : (mainPart ++ '.' :: frac).contains '.' = true :=
    contains_eq_true_of_mem (List.mem_append_right _ (by simp))
  have hany : frac.any isSignChar = false :=
    List.any_eq_false.mpr (fun c hc => by
      rw [isSignChar_eq_false_of_digit (hfrac c hc)]; simp)
  simp only [parseTsCore, htrim, hcont, if_true, breakAtLastDot_eq hfracdot, hany,
    Bool.false_eq_true, if_false, splitOnChar_single_dot hmain hfracdot, hdt]
  rw [subsec_tail_eval hfrac]

/-- `parseTsCore` on `main ++ "." ++ frac ++ sign ++ tz`: everything from
the first sign character after the last dot is stripped and discarded. -/
theorem parseTsCore_frac_tz {mainPart frac tzrest : List Char} {sign : Char}
    {dt : NaiveDT}
    (htrim : trimBoth (mainPart ++ '.' :: (frac ++ sign :: tzrest))
      = mainPart ++ '.' :: (frac ++ sign :: tzrest))
    (hfrac : ∀ c ∈ frac, c.isDigit = true)
    (hsign : isSignChar sign = true)
    (htz : ∀ c ∈ tzrest, c ≠ '.')
    (hdt : parseMainPart mainPart = some dt) :
    parseTsCore (mainPart ++ '.' :: (frac ++ sign :: tzrest))
      = some (dt, digitsToNat (rightPad3 (frac.take 3))) := by
  have hsign_ne : sign ≠ '.' := by
    rcases (by simpa [isSignChar] using hsign : sign = '+' ∨ sign = '-') with rfl | rfl
    · decide
    · decide
  have hafter : ∀ c ∈ frac ++ sign :: tzrest, c ≠ '.' := by
    intro c hc
    rcases List.mem_append.mp hc with h1 | h1
    · exact ne_of_isDigit (hfrac c h1) (by decide)
    · rcases List.mem_cons.mp h1 with rfl | h2
      · exact hsign_ne
      · exact htz c h2
  have hcont : (mainPart ++ '.' :: (frac ++ sign :: tzrest)).contains '.' = true :=
    contains_eq_true_of_mem (List.mem_append_right _ (by simp))
  have hany : (frac ++ sign :: tzrest).any isSignChar = true :=
    List.any_eq_true.mpr ⟨sign, List.mem_append_right _ (by simp), hsign⟩
  have htake : (frac ++ sign :: tzrest).takeWhile (fun c => ¬ isSignChar c) = frac := by
    rw [takeWhile_append_all (fun c hc => by
      simp [isSignChar_eq_false_of_digit (hfrac c hc)])]
    rw [takeWhile_cons_neg (by simp [hsign])]
    simp
  simp only [parseTsCore, htrim, hcont, if_true, breakAtLastDot_eq hafter, hany,
    htake, hdt]
  rw [subsec_tail_eval hfrac]

/-! ### Trim behaviour on canonically shaped inputs -/

theorem getLast?_skip (A : List Char) (c : Char) {B : List Char} (h : B ≠ []) :
    (A ++ c :: B).getLast? = B.getLast? := by
  rw [List.getLast?_append_of_ne_nil _ (by simp),
    show c :: B = [c] ++ B from rfl, List.getLast?_append_of_ne_nil _ h]

theorem mkTsChars_ne_nil (sep : Char) (y mo dd hh mi ss : Nat) :
    mkTsChars sep y mo dd hh mi ss ≠ [] := by
  simp only [mkTsChars]
  intro h
  exact padLeft_ne_nil (w := 4) (s := natRepr y) (by norm_num)
    (List.append_eq_nil.mp h).1

theorem mkTsChars_head_digit (sep : Char) (y mo dd hh mi ss : Nat) :
    ∀ c, (mkTsChars sep y mo dd hh mi ss).head? = some c → c.isDigit = true := by
  intro c hc
  simp only [mkTsChars] at hc
  rw [List.head?_append_of_ne_nil _ (padLeft_ne_nil (by norm_num))] at hc
  exact padLeft_all_digit 4 (natRepr_all_digit y) c (List.mem_of_mem_head? hc)

theorem mkTsChars_getLast? (sep : Char) (y mo dd hh mi ss : Nat) :
    (mkTsChars sep y mo dd hh mi ss).getLast? = (pad2 ss).data.getLast? := by
  have hne : (pad2 ss).data ≠ [] := padLeft_ne_nil (by norm_num)
  simp only [mkTsChars]
  rw [getLast?_skip _ _ (by simp), getLast?_skip _ _ (by simp),
    getLast?_skip _ _ (by simp), getLast?_skip _ _ (by simp),
    getLast?_skip _ _ hne]

theorem trimBoth_mkTs (sep : Char) (y mo dd hh mi ss : Nat) :
    trimBoth (mkTsChars sep y mo dd hh mi ss) = mkTsChars sep y mo dd hh mi ss := by
  apply trimBoth_eq_self
  · intro c hc
    exact not_ws_of_isDigit (mkTsChars_head_digit sep y mo dd hh mi ss c hc)
  · intro c hc
    rw [mkTsChars_getLast?] at hc
    exact not_ws_of_isDigit (pad2_all_digit ss c (List.mem_of_mem_getLast? hc))

theorem trimBoth_mkTs_tail (sep : Char) (y mo dd hh mi ss : Nat)
    {tail : List Char} (hne : tail ≠ [])
    (hlast : ∀ c, tail.getLast? = some c → c.isWhitespace = false) :
    trimBoth (mkTsChars sep y mo dd hh mi ss ++ tail)
      = mkTsChars sep y mo dd hh mi ss ++ tail := by
  apply trimBoth_eq_self
  · intro c hc
    rw [List.head?_append_of_ne_nil _ (mkTsChars_ne_nil sep y mo dd hh mi ss)] at hc
    exact not_ws_of_isDigit (mkTsChars_head_digit sep y mo dd hh mi ss c hc)
  · intro c hc
    rw [List.getLast?_append_of_ne_nil _ hne] at hc
    exact hlast c hc

/-- Evaluation of the date-time validation on in-range fields. -/
theorem mkNaiveDT_eval {y mo dd hh mi ss : Nat}
    (hy : y ≤ 9999) (hmo1 : 1 ≤ mo) (hmo2 : mo ≤ 12) (hd1 : 1 ≤ dd)
    (hd2 : dd ≤ daysInMonth (y : Int) mo) (hh2 : hh ≤ 23) (hmi2 : mi ≤ 59)
    (hs2 : ss ≤ 59) :
    mkNaiveDT (y : Int) mo dd hh mi ss = some ⟨(y : Int), mo, dd, hh, mi, ss⟩ := by
  rw [mkNaiveDT, if_pos]
  · rw [if_neg (by omega)]
  · refine ⟨hmo1, hmo2, hd1, hd2, hh2, hmi2, by omega, by omega, by omega⟩

theorem rightPad3_take_idem (L : List Char) :
    rightPad3 ((rightPad3 L).take 3) = rightPad3 (L.take 3) := by
  by_cases hl : L.length ≤ 3
  · rw [List.take_of_length_le hl]
    rw [List.take_of_length_le (le_of_eq (rightPad3_length hl))]
    rw [show rightPad3 (rightPad3 L) = rightPad3 L ++ List.replicate
        (3 - (rightPad3 L).length) '0' from rfl]
    rw [rightPad3_length hl]
    simp
  · have h0 : rightPad3 L = L := by
      simp only [rightPad3]
      rw [show 3 - L.length = 0 by omega]
      simp
    rw [h0]

/-! ### The spec's canonical path format

`specCanonicalPathFormat` transcribes the specification's bit-exact path
contract `YYYY/MM-Mon/YYYYMMDD_HHMMSS.mmm[-N].ext` (spec §6): a four-digit
year directory, a two-digit month with a fixed English three-letter
abbreviation, an eight-digit date, a six-digit time, exactly three
millisecond digits, and an optional `-N` tie-break suffix with `N ≥ 2`.
It is written from the specification's words, to be compared with what
`generate_filename` produces. -/

def specCanonicalPathFormat (p : String) : Bool :=
  let cs := p.data
  let yds := cs.takeWhile Char.isDigit
  let r1 := cs.dropWhile Char.isDigit
  decide (yds.length = 4) &&
    match r1 with
    | '/' :: r2 =>
      let mds := r2.takeWhile Char.isDigit
      let r3 := r2.dropWhile Char.isDigit
      decide (mds.length = 2) &&
        match r3 with
        | '-' :: r4 =>
          month_names.contains (String.mk (r4.take 3)) &&
            match r4.drop 3 with
            | '/' :: r6 =>
              let dds := r6.takeWhile Char.isDigit
              let r7 := r6.dropWhile Char.isDigit
              decide (dds.length = 8) &&
                match r7 with
                | '_' :: r8 =>
                  let tds := r8.takeWhile Char.isDigit
                  let r9 := r8.dropWhile Char.isDigit
                  decide (tds.length = 6) &&
                    match r9 with
                    | '.' :: r10 =>
                      let mms := r10.takeWhile Char.isDigit
                      let r11 := r10.dropWhile Char.isDigit
                      decide (mms.length = 3) &&
                        match r11 with
                        | '.' :: _ => true
                        | '-' :: r12 =>
                          let nds := r12.takeWhile Char.isDigit
                          let r13 := r12.dropWhile Char.isDigit
                          decide (1 ≤ nds.length) && decide (2 ≤ digitsToNat nds) &&
                            match r13 with
                            | '.' :: _ => true
                            | _ => false
                        | _ => false
                    | _ => false
                | _ => false
            | _ => false
        | _ => false
    | _ => false

/-! ### The generated paths match the spec's format (four-digit years) -/

theorem span_digits_take {A B : List Char} {c : Char}
    (hA : ∀ x ∈ A, x.isDigit = true) (hc : c.isDigit = false) :
    (A ++ c :: B).takeWhile Char.isDigit = A := by
  rw [takeWhile_append_all hA, takeWhile_cons_neg hc]
  simp

theorem span_digits_drop {A B : List Char} {c : Char}
    (hA : ∀ x ∈ A, x.isDigit = true) (hc : c.isDigit = false) :
    (A ++ c :: B).dropWhile Char.isDigit = c :: B := by
  rw [dropWhile_append_all hA, dropWhile_cons_neg hc]

theorem monthAbbrev_mem {mo : Nat} (h1 : 1 ≤ mo) (h2 : mo ≤ 12) :
    monthAbbrev mo ∈ month_names := by
  interval_cases mo <;> decide

theorem monthAbbrev_len {mo : Nat} (h1 : 1 ≤ mo) (h2 : mo ≤ 12) :
    (monthAbbrev mo).data.length = 3 := by
  interval_cases mo <;> decide

theorem intRepr_nonneg {y : Int} (h : 0 ≤ y) : intRepr y = natRepr y.toNat := by
  rw [intRepr, if_neg (by omega)]
  congr 1
  omega

theorem canonicalPath_data (dt : NaiveDT) (ms : Nat) (ext : String) :
    (canonicalPath dt ms ext).data =
      (intRepr dt.year).data ++ '/' ::
        ((pad2 dt.month).data ++ '-' ::
          ((monthAbbrev dt.month).data ++ '/' ::
            ((intRepr dt.year).data ++
              ((pad2 dt.month).data ++
                ((pad2 dt.day).data ++ '_' ::
                  ((pad2 dt.hour).data ++
                    ((pad2 dt.minute).data ++
                      ((pad2 dt.second).data ++ '.' ::
                        ((pad3 ms).data ++ '.' :: ext.data))))))))) := by
  simp [canonicalPath, dirPart, baseFilename, String.data_append, List.append_assoc]

theorem suffixedPath_data (dt : NaiveDT) (ms : Nat) (n : Nat) (ext : String) :
    (suffixedPath dt ms n ext).data =
      (intRepr dt.year).data ++ '/' ::
        ((pad2 dt.month).data ++ '-' ::
          ((monthAbbrev dt.month).data ++ '/' ::
            ((intRepr dt.year).data ++
              ((pad2 dt.month).data ++
                ((pad2 dt.day).data ++ '_' ::
                  ((pad2 dt.hour).data ++
                    ((pad2 dt.minute).data ++
                      ((pad2 dt.second).data ++ '.' ::
                        ((pad3 ms).data ++ '-' ::
                          ((natRepr n).data ++ '.' :: ext.data)))))))))) := by
  simp [suffixedPath, dirPart, String.data_append, List.append_assoc]

theorem take_len_append {A B : List Char} {n : Nat} (h : A.length = n) :
    (A ++ B).take n = A := by
  rw [← h]; exact List.take_left A B

theorem drop_len_append {A B : List Char} {n : Nat} (h : A.length = n) :
    (A ++ B).drop n = B := by
  rw [← h]; exact List.drop_left A B

theorem natRepr_ne_nil (n : Nat) : (natRepr n).data ≠ [] := by
  intro h
  by_cases h0 : n = 0
  · rw [h0] at h; exact absurd h (by decide)
  · have := natRepr_length_eq (k := (digitsRev n).length - 1) (n := n)
    have hlen : (natRepr n).data.length = 0 := by rw [h]; rfl
    simp only [natRepr, h0, if_false] at hlen
    simp at hlen
    rw [digitsRev_eq] at hlen
    simp [h0] at hlen

theorem specFormat_canonical (dt : NaiveDT) (ms : Nat) (ext : String)
    (hy1 : 1000 ≤ dt.year) (hy2 : dt.year ≤ 9999)
    (hmo1 : 1 ≤ dt.month) (hmo2 : dt.month ≤ 12)
    (hd : dt.day ≤ 99) (hhr : dt.hour ≤ 99) (hmi : dt.minute ≤ 99)
    (hs : dt.second ≤ 99) (hms : ms ≤ 999) :
    specCanonicalPathFormat (canonicalPath dt ms ext) = true := by
  have hYr : intRepr dt.year = natRepr dt.year.toNat := intRepr_nonneg (by omega)
  have hylo : 10 ^ 3 ≤ dt.year.toNat := by simp; omega
  have hyhi : dt.year.toNat < 10 ^ (3 + 1) := by simp; omega
  have hYdig := natRepr_all_digit dt.year.toNat
  have hYlen : (natRepr dt.year.toNat).data.length = 4 := natRepr_length_eq hylo hyhi
  have hMdig := pad2_all_digit dt.month
  have hMlen : (pad2 dt.month).data.length = 2 := pad2_length (by omega)
  have hDdig := pad2_all_digit dt.day
  have hDlen : (pad2 dt.day).data.length = 2 := pad2_length (by omega)
  have hHdig := pad2_all_digit dt.hour
  have hHlen : (pad2 dt.hour).data.length = 2 := pad2_length (by omega)
  have hIdig := pad2_all_digit dt.minute
  have hIlen : (pad2 dt.minute).data.length = 2 := pad2_length (by omega)
  have hSdig := pad2_all_digit dt.second
  have hSlen : (pad2 dt.second).data.length = 2 := pad2_length (by omega)
  have hmsdig := pad3_all_digit ms
  have hmslen : (pad3 ms).data.length = 3 := pad3_length (by omega)
  have hmondig := monthAbbrev_len hmo1 hmo2
  simp only [specCanonicalPathFormat, canonicalPath_data, hYr]
  rw [span_digits_take hYdig (by decide), span_digits_drop hYdig (by decide)]
  simp only [hYlen, decide_True, Bool.true_and]
  rw [span_digits_take hMdig (by decide), span_digits_drop hMdig (by decide)]
  simp only [hMlen, decide_True, Bool.true_and]
  rw [take_len_append hmondig, drop_len_append hmondig]
  rw [show String.mk (monthAbbrev dt.month).data = monthAbbrev dt.month from rfl]
  rw [contains_eq_true_of_mem (monthAbbrev_mem hmo1 hmo2)]
  simp only [Bool.true_and]
  rw [takeWhile_append_all hYdig, takeWhile_append_all hMdig,
    span_digits_take hDdig (by decide),
    dropWhile_append_all hYdig, dropWhile_append_all hMdig,
    span_digits_drop hDdig (by decide)]
  simp only [List.length_append, hYlen, hMlen, hDlen, decide_True, Bool.true_and]
  rw [takeWhile_append_all hHdig, takeWhile_append_all hIdig,
    span_digits_take hSdig (by decide),
    dropWhile_append_all hHdig, dropWhile_append_all hIdig,
    span_digits_drop hSdig (by decide)]
  simp only [List.length_append, hHlen, hIlen, hSlen, decide_True, Bool.true_and]
  rw [span_digits_take hmsdig (by decide), span_digits_drop hmsdig (by decide)]
  simp only [hmslen, decide_True, Bool.true_and]

theorem specFormat_suffixed (dt : NaiveDT) (ms n : Nat) (ext : String)
    (hy1 : 1000 ≤ dt.year) (hy2 : dt.year ≤ 9999)
    (hmo1 : 1 ≤ dt.month) (hmo2 : dt.month ≤ 12)
    (hd : dt.day ≤ 99) (hhr : dt.hour ≤ 99) (hmi : dt.minute ≤ 99)
    (hs : dt.second ≤ 99) (hms : ms ≤ 999) (hn : 2 ≤ n) :
    specCanonicalPathFormat (suffixedPath dt ms n ext) = true := by
  have hYr : intRepr dt.year = natRepr dt.year.toNat := intRepr_nonneg (by omega)
  have hylo : 10 ^ 3 ≤ dt.year.toNat := by simp; omega
  have hyhi : dt.year.toNat < 10 ^ (3 + 1) := by simp; omega
  have hYdig := natRepr_all_digit dt.year.toNat
  have hYlen : (natRepr dt.year.toNat).data.length = 4 := natRepr_length_eq hylo hyhi
  have hMdig := pad2_all_digit dt.month
  have hMlen : (pad2 dt.month).data.length = 2 := pad2_length (by omega)
  have hDdig := pad2_all_digit dt.day
  have hDlen : (pad2 dt.day).data.length = 2 := pad2_length (by omega)
  have hHdig := pad2_all_digit dt.hour
  have hHlen : (pad2 dt.hour).data.length = 2 := pad2_length (by omega)
  have hIdig := pad2_all_digit dt.minute
  have hIlen : (pad2 dt.minute).data.length = 2 := pad2_length (by omega)
  have hSdig := pad2_all_digit dt.second
  have hSlen : (pad2 dt.second).data.length = 2 := pad2_length (by omega)
  have hmsdig := pad3_all_digit ms
  have hmslen : (pad3 ms).data.length = 3 := pad3_length (by omega)
  have hmondig := monthAbbrev_len hmo1 hmo2
  have hNdig := natRepr_all_digit n
  simp only [specCanonicalPathFormat, suffixedPath_data, hYr]
  rw [span_digits_take hYdig (by decide), span_digits_drop hYdig (by decide)]
  simp only [hYlen, decide_True, Bool.true_and]
  rw [span_digits_take hMdig (by decide), span_digits_drop hMdig (by decide)]
  simp only [hMlen, decide_True, Bool.true_and]
  rw [take_len_append hmondig, drop_len_append hmondig]
  rw [show String.mk (monthAbbrev dt.month).data = monthAbbrev dt.month from rfl]
  rw [contains_eq_true_of_mem (monthAbbrev_mem hmo1 hmo2)]
  simp only [Bool.true_and]
  rw [takeWhile_append_all hYdig, takeWhile_append_all hMdig,
    span_digits_take hDdig (by decide),
    dropWhile_append_all hYdig, dropWhile_append_all hMdig,
    span_digits_drop hDdig (by decide)]
  simp only [List.length_append, hYlen, hMlen, hDlen, decide_True, Bool.true_and]
  rw [takeWhile_append_all hHdig, takeWhile_append_all hIdig,
    span_digits_take hSdig (by decide),
    dropWhile_append_all hHdig, dropWhile_append_all hIdig,
    span_digits_drop hSdig (by decide)]
  simp only [List.length_append, hHlen, hIlen, hSlen, decide_True, Bool.true_and]
  rw [span_digits_take hmsdig (by decide), span_digits_drop hmsdig (by decide)]
  simp only [hmslen, decide_True, Bool.true_and]
  rw [span_digits_take hNdig (by decide), span_digits_drop hNdig (by decide)]
  have hNlen : 1 ≤ (natRepr n).data.length := by
    cases h : (natRepr n).data with
    | nil => exact absurd h (natRepr_ne_nil n)
    | cons a l => simp
  have hNval : 2 ≤ digitsToNat (natRepr n).data := by
    rw [digitsToNat_natRepr]; exact hn
  simp only [hNlen, hNval, decide_True, Bool.true_and, decide_eq_true_eq]

/-! ### Resolver lemmas -/

theorem daysInMonth_le_31 (y : Int) (mo : Nat) : daysInMonth y mo ≤ 31 := by
  rw [daysInMonth]
  split
  · split <;> omega
  · split <;> omega

theorem tryPreCombined_wins {m : List (String × String)} :
    ∀ fields : List String,
      (∃ f ∈ fields, ∃ v, mget m f = some v ∧
        (parse_timestamp_with_subseconds v).isSome = true) →
      ∃ r, tryPreCombined m fields = some r ∧
        ∃ f v, f ∈ fields ∧ mget m f = some v ∧
          parse_timestamp_with_subseconds v = some r := by
  intro fields
  induction fields with
  | nil => rintro ⟨f, hf, _⟩; simp at hf
  | cons f fs ih =>
    rintro ⟨g, hg, v, hv, hparse⟩
    cases hmf : mget m f with
    | some w =>
      cases hpw : parse_timestamp_with_subseconds w with
      | some r =>
        refine ⟨r, ?_, f, w, by simp, hmf, hpw⟩
        simp [tryPreCombined, hmf, hpw]
      | none =>
        have hgfs : g ∈ fs := by
          rcases List.mem_cons.mp hg with rfl | h
          · rw [hmf] at hv
            cases hv
            rw [hpw] at hparse
            simp at hparse
          · exact h
        obtain ⟨r, hr, f', v', hf', hv', hp'⟩ := ih ⟨g, hgfs, v, hv, hparse⟩
        exact ⟨r, by simp [tryPreCombined, hmf, hpw, hr],
          f', v', List.mem_cons_of_mem _ hf', hv', hp'⟩
    | none =>
      have hgfs : g ∈ fs := by
        rcases List.mem_cons.mp hg with rfl | h
        · rw [hmf] at hv; cases hv
        · exact h
      obtain ⟨r, hr, f', v', hf', hv', hp'⟩ := ih ⟨g, hgfs, v, hv, hparse⟩
      exact ⟨r, by simp [tryPreCombined, hmf, hr],
        f', v', List.mem_cons_of_mem _ hf', hv', hp'⟩

theorem tryPreCombined_none_of_absent {m : List (String × String)} :
    ∀ fields : List String, (∀ f ∈ fields, mget m f = none) →
      tryPreCombined m fields = none := by
  intro fields
  induction fields with
  | nil => intro _; rfl
  | cons f fs ih =>
    intro h
    simp [tryPreCombined, h f (by simp), ih (fun g hg => h g (List.mem_cons_of_mem _ hg))]

theorem parseMainPart_mkTs_sep (sep : Char) (y mo dd hh mi ss : Nat)
    (hsep : sep = '-' ∨ sep = ':')
    (hy : y ≤ 9999) (hmo1 : 1 ≤ mo) (hmo2 : mo ≤ 12) (hd1 : 1 ≤ dd)
    (hd2 : dd ≤ daysInMonth (y : Int) mo) (hh2 : hh ≤ 23) (hmi2 : mi ≤ 59)
    (hs2 : ss ≤ 59) :
    parseMainPart (mkTsChars sep y mo dd hh mi ss)
      = some ⟨(y : Int), mo, dd, hh, mi, ss⟩ := by
  have hdle := daysInMonth_le_31 (y : Int) mo
  rcases hsep with rfl | rfl
  · rw [parseMainPart_mkTs_dash y mo dd hh mi ss hy (by omega) (by omega)
      (by omega) (by omega) (by omega)]
    exact mkNaiveDT_eval hy hmo1 hmo2 hd1 hd2 hh2 hmi2 hs2
  · rw [parseMainPart_mkTs_colon y mo dd hh mi ss hy (by omega) (by omega)
      (by omega) (by omega) (by omega)]
    exact mkNaiveDT_eval hy hmo1 hmo2 hd1 hd2 hh2 hmi2 hs2

/-- The combination step on a canonically shaped base timestamp and an
all-digit sub-second value: the zero-right-padded value is glued to the
base with a literal dot and re-parsed; the resulting millisecond count is
the value of the first three characters of the (padded) fraction. -/
theorem combined_parse_eval (sep : Char) (y mo dd hh mi ss : Nat) (v : String)
    (hsep : sep = '-' ∨ sep = ':')
    (hy : y ≤ 9999) (hmo1 : 1 ≤ mo) (hmo2 : mo ≤ 12) (hd1 : 1 ≤ dd)
    (hd2 : dd ≤ daysInMonth (y : Int) mo) (hh2 : hh ≤ 23) (hmi2 : mi ≤ 59)
    (hs2 : ss ≤ 59) (hv : ∀ c ∈ v.data, c.isDigit = true) :
    parse_timestamp_with_subseconds
        (String.mk (mkTsChars sep y mo dd hh mi ss) ++ "." ++
          String.mk (rightPad3 v.data))
      = some (⟨(y : Int), mo, dd, hh, mi, ss⟩,
          digitsToNat (rightPad3 (v.data.take 3))) := by
  have hsepdot : sep ≠ '.' := by rcases hsep with rfl | rfl <;> decide
  have hdata : (String.mk (mkTsChars sep y mo dd hh mi ss) ++ "." ++
      String.mk (rightPad3 v.data)).data
      = mkTsChars sep y mo dd hh mi ss ++ '.' :: rightPad3 v.data := by
    simp [String.data_append, List.append_assoc]
  rw [parse_timestamp_with_subseconds, hdata]
  have hfrac := rightPad3_all_digit hv
  have htrim : trimBoth (mkTsChars sep y mo dd hh mi ss ++ '.' :: rightPad3 v.data)
      = mkTsChars sep y mo dd hh mi ss ++ '.' :: rightPad3 v.data := by
    apply trimBoth_mkTs_tail sep y mo dd hh mi ss (by simp)
    intro c hc
    have hcm := List.mem_of_mem_getLast? hc
    rcases List.mem_cons.mp hcm with rfl | h2
    · decide
    · exact not_ws_of_isDigit (hfrac c h2)
  have hdt : parseMainPart (mkTsChars sep y mo dd hh mi ss)
      = some ⟨(y : Int), mo, dd, hh, mi, ss⟩ :=
    parseMainPart_mkTs_sep sep y mo dd hh mi ss hsep hy hmo1 hmo2 hd1 hd2 hh2
      hmi2 hs2
  rw [parseTsCore_frac htrim (mkTsChars_no_dot sep y mo dd hh mi ss hsepdot) hfrac hdt]
  rw [rightPad3_take_idem]


/-! ### Claim theorems: the timestamp resolver and parser -/

/-- C2: when a photo-classified metadata bag (no "MediaCreateDate" /
"MediaModifyDate" key) contains a pre-combined sub-second field whose value
parses, `extract_best_timestamp` returns an instant parsed from one of the
pre-combined fields — in preference to any base-plus-fraction combination
and to any base timestamp alone, whatever those would parse to. -/
theorem c2_precombined_preference (m : List (String × String))
    (hv1 : mget m "MediaCreateDate" = none) (hv2 : mget m "MediaModifyDate" = none)
    (hex : ∃ f ∈ pre_combined_fields, ∃ v, mget m f = some v ∧
      (parse_timestamp_with_subseconds v).isSome = true) :
    ∃ r, extract_best_timestamp m = some r ∧
      ∃ f v, f ∈ pre_combined_fields ∧ mget m f = some v ∧
        parse_timestamp_with_subseconds v = some r := by
  obtain ⟨r, hr, f, v, hf, hvv, hp⟩ := tryPreCombined_wins pre_combined_fields hex
  refine ⟨r, ?_, f, v, hf, hvv, hp⟩
  rw [extract_best_timestamp, if_neg (by simp [hv1, hv2])]
  rw [extract_photo_timestamp, hr]

def c2Bag : List (String × String) :=
  [("SubSecCreateDate", "2025:09:24 08:20:49.680"),
   ("DateTimeOriginal", "2020:01:01 00:00:00"),
   ("SubSecTimeOriginal", "111")]

theorem c2_precombined_preference_witness :
    (∃ r, extract_best_timestamp c2Bag = some r ∧
      ∃ f v, f ∈ pre_combined_fields ∧ mget c2Bag f = some v ∧
        parse_timestamp_with_subseconds v = some r) ∧
    extract_best_timestamp c2Bag = some (⟨2025, 9, 24, 8, 20, 49⟩, 680) :=
  ⟨c2_precombined_preference c2Bag (by decide) (by decide)
    ⟨"SubSecCreateDate", by decide, "2025:09:24 08:20:49.680", by decide, by decide⟩,
   by decide⟩

/-- C5 (counterexample): the parser rejects a literal `T` separator with
either date-separator convention, and rejects a trailing timezone offset
when no fractional-seconds dot precedes it — all three are shapes the claim
says it accepts. -/
theorem c5_counterexample :
    parse_timestamp_with_subseconds "2025:09:24T08:20:49" = none ∧
    parse_timestamp_with_subseconds "2025-09-24T08:20:49" = none ∧
    parse_timestamp_with_subseconds "2025:09:24 08:20:49+04:00" = none := by
  decide

/-- C5 (amended): the parser accepts both date-separator conventions
(`YYYY-MM-DD` and `YYYY:MM:DD`) with the time separated from the date by a
space (never a literal `T`); a trailing timezone beginning with `+`/`-` is
stripped and discarded without being applied — the naive wall-clock value
is returned directly — but only when a fractional-seconds dot precedes it. -/
theorem c5_parser_amended :
    (∀ (sep : Char) (y mo dd hh mi ss : Nat), (sep = '-' ∨ sep = ':') →
      y ≤ 9999 → 1 ≤ mo → mo ≤ 12 → 1 ≤ dd → dd ≤ daysInMonth (y : Int) mo →
      hh ≤ 23 → mi ≤ 59 → ss ≤ 59 →
      parse_timestamp_with_subseconds (String.mk (mkTsChars sep y mo dd hh mi ss))
        = some (⟨(y : Int), mo, dd, hh, mi, ss⟩, 0)) ∧
    (∀ (sep : Char) (y mo dd hh mi ss : Nat) (frac : List Char),
      (sep = '-' ∨ sep = ':') →
      y ≤ 9999 → 1 ≤ mo → mo ≤ 12 → 1 ≤ dd → dd ≤ daysInMonth (y : Int) mo →
      hh ≤ 23 → mi ≤ 59 → ss ≤ 59 →
      (∀ c ∈ frac, c.isDigit = true) →
      parse_timestamp_with_subseconds
          (String.mk (mkTsChars sep y mo dd hh mi ss ++ '.' :: frac))
        = some (⟨(y : Int), mo, dd, hh, mi, ss⟩,
            digitsToNat (rightPad3 (frac.take 3)))) ∧
    (∀ (sep sign : Char) (y mo dd hh mi ss : Nat) (frac tzrest : List Char),
      (sep = '-' ∨ sep = ':') →
      y ≤ 9999 → 1 ≤ mo → mo ≤ 12 → 1 ≤ dd → dd ≤ daysInMonth (y : Int) mo →
      hh ≤ 23 → mi ≤ 59 → ss ≤ 59 →
      (∀ c ∈ frac, c.isDigit = true) →
      isSignChar sign = true →
      (∀ c ∈ tzrest, c.isDigit = true ∨ c = ':') →
      parse_timestamp_with_subseconds
          (String.mk (mkTsChars sep y mo dd hh mi ss ++
            '.' :: (frac ++ sign :: tzrest)))
        = some (⟨(y : Int), mo, dd, hh, mi, ss⟩,
            digitsToNat (rightPad3 (frac.take 3)))) := by
  have hsep_dot : ∀ sep : Char, (sep = '-' ∨ sep = ':') → sep ≠ '.' := by
    rintro sep (rfl | rfl) <;> decide
  refine ⟨?_, ?_, ?_⟩
  · intro sep y mo dd hh mi ss hsep hy hmo1 hmo2 hd1 hd2 hh2 hmi2 hs2
    rw [parse_timestamp_with_subseconds,
      show (String.mk (mkTsChars sep y mo dd hh mi ss)).data
        = mkTsChars sep y mo dd hh mi ss from rfl]
    exact parseTsCore_nodot (trimBoth_mkTs sep y mo dd hh mi ss)
      (mkTsChars_no_dot sep y mo dd hh mi ss (hsep_dot sep hsep))
      (parseMainPart_mkTs_sep sep y mo dd hh mi ss hsep hy hmo1 hmo2 hd1 hd2 hh2 hmi2 hs2)
  · intro sep y mo dd hh mi ss frac hsep hy hmo1 hmo2 hd1 hd2 hh2 hmi2 hs2 hfrac
    rw [parse_timestamp_with_subseconds,
      show (String.mk (mkTsChars sep y mo dd hh mi ss ++ '.' :: frac)).data
        = mkTsChars sep y mo dd hh mi ss ++ '.' :: frac from rfl]
    have htrim : trimBoth (mkTsChars sep y mo dd hh mi ss ++ '.' :: frac)
        = mkTsChars sep y mo dd hh mi ss ++ '.' :: frac := by
      apply trimBoth_mkTs_tail sep y mo dd hh mi ss (by simp)
      intro c hc
      rcases List.mem_cons.mp (List.mem_of_mem_getLast? hc) with rfl | h2
      · decide
      · exact not_ws_of_isDigit (hfrac c h2)
    exact parseTsCore_frac htrim
      (mkTsChars_no_dot sep y mo dd hh mi ss (hsep_dot sep hsep)) hfrac
      (parseMainPart_mkTs_sep sep y mo dd hh mi ss hsep hy hmo1 hmo2 hd1 hd2 hh2 hmi2 hs2)
  · intro sep sign y mo dd hh mi ss frac tzrest hsep hy hmo1 hmo2 hd1 hd2 hh2 hmi2 hs2
      hfrac hsign htz
    rw [parse_timestamp_with_subseconds,
      show (String.mk (mkTsChars sep y mo dd hh mi ss ++
          '.' :: (frac ++ sign :: tzrest))).data
        = mkTsChars sep y mo dd hh mi ss ++ '.' :: (frac ++ sign :: tzrest) from rfl]
    have hsign2 : sign = '+' ∨ sign = '-' := by simpa [isSignChar] using hsign
    have htrim : trimBoth (mkTsChars sep y mo dd hh mi ss ++
        '.' :: (frac ++ sign :: tzrest))
        = mkTsChars sep y mo dd hh mi ss ++ '.' :: (frac ++ sign :: tzrest) := by
      apply trimBoth_mkTs_tail sep y mo dd hh mi ss (by simp)
      intro c hc
      rcases List.mem_cons.mp (List.mem_of_mem_getLast? hc) with rfl | h2
      · decide
      · rcases List.mem_append.mp h2 with h3 | h3
        · exact not_ws_of_isDigit (hfrac c h3)
        · rcases List.mem_cons.mp h3 with rfl | h4
          · rcases hsign2 with rfl | rfl <;> decide
          · rcases htz c h4 with h5 | h5
            · exact not_ws_of_isDigit h5
            · rw [h5]; decide
    have htzdot : ∀ c ∈ tzrest, c ≠ '.' := by
      intro c hc
      rcases htz c hc with h5 | h5
      · exact ne_dot_of_isDigit h5
      · rw [h5]; decide
    exact parseTsCore_frac_tz htrim hfrac hsign htzdot
      (parseMainPart_mkTs_sep sep y mo dd hh mi ss hsep hy hmo1 hmo2 hd1 hd2 hh2 hmi2 hs2)

theorem c5_parser_amended_witness :
    parse_timestamp_with_subseconds
        (String.mk (mkTsChars ':' 2025 9 24 8 20 49))
      = some (⟨2025, 9, 24, 8, 20, 49⟩, 0) ∧
    parse_timestamp_with_subseconds
        (String.mk (mkTsChars '-' 2025 9 24 8 20 49 ++ '.' :: ['6', '8']))
      = some (⟨2025, 9, 24, 8, 20, 49⟩, 680) ∧
    parse_timestamp_with_subseconds
        (String.mk (mkTsChars ':' 2025 10 12 16 26 3 ++
          '.' :: (['1', '2'] ++ '-' :: ['0', '4', ':', '0', '0'])))
      = some (⟨2025, 10, 12, 16, 26, 3⟩, 120) := by
  refine ⟨?_, ?_, ?_⟩
  · rw [c5_parser_amended.1 ':' 2025 9 24 8 20 49 (Or.inr rfl) (by norm_num)
      (by norm_num) (by norm_num) (by norm_num) (by decide) (by norm_num)
      (by norm_num) (by norm_num)]
    norm_num
  · rw [c5_parser_amended.2.1 '-' 2025 9 24 8 20 49 ['6', '8'] (Or.inl rfl)
      (by norm_num) (by norm_num) (by norm_num) (by norm_num) (by decide)
      (by norm_num) (by norm_num) (by norm_num) (by decide)]
    decide
  · rw [c5_parser_amended.2.2 ':' '-' 2025 10 12 16 26 3 ['1', '2']
      ['0', '4', ':', '0', '0'] (Or.inr rfl) (by norm_num) (by norm_num)
      (by norm_num) (by norm_num) (by decide) (by norm_num) (by norm_num)
      (by norm_num) (by decide) (by decide) (by decide)]
    decide

/-- Modelled from the spec's words for claim C6: surrounding quote
characters are stripped before any numeric handling, then a fraction with
fewer than three digits is right-padded with zeros to width 3 and one with
more than three digits is truncated to its first three digits. -/
def specClaimMs (raw : String) : Nat :=
  let L := trimQuotes raw.data
  digitsToNat (if 3 < L.length then L.take 3 else rightPad3 L)

/-- C6 (counterexample): on the quoted fraction value `"123"` the code
truncates to three characters before stripping quotes, keeping only the
digits `12` and computing 120 ms, while the claim's strip-then-truncate
reading yields 123 ms. -/
theorem c6_counterexample :
    extract_best_timestamp
        [("DateTimeOriginal", "2023:01:02 03:04:05"),
         ("SubSecTimeOriginal", "\"123\"")]
      = some (⟨2023, 1, 2, 3, 4, 5⟩, 120) ∧
    specClaimMs "\"123\"" = 123 ∧ (120 : Nat) ≠ 123 := by
  decide

/-- Skipping a prefix of the combination list: a pair whose base field is
absent, whose sub-second field is absent, or whose combined string fails to
parse — the three ways the loop of exif.rs:536-545 can pass a pair over —
leaves the result of `tryCombinations` on the remaining pairs unchanged. -/
theorem tryCombinations_skip_prefix (m : List (String × String)) :
    ∀ (earlier ps : List (String × String)),
      (∀ p ∈ earlier, mget m p.1 = none ∨ mget m p.2 = none ∨
        ∃ b w, mget m p.1 = some b ∧ mget m p.2 = some w ∧
          parse_timestamp_with_subseconds
              (b ++ "." ++ String.mk (rightPad3 w.data)) = none) →
      tryCombinations m (earlier ++ ps) = tryCombinations m ps := by
  intro earlier
  induction earlier with
  | nil => intro ps _; rfl
  | cons q qs ih =>
    intro ps hskip
    obtain ⟨bf, sf⟩ := q
    have hq := hskip (bf, sf) (List.mem_cons_self _ _)
    have hr : ∀ p ∈ qs, mget m p.1 = none ∨ mget m p.2 = none ∨
        ∃ b w, mget m p.1 = some b ∧ mget m p.2 = some w ∧
          parse_timestamp_with_subseconds
              (b ++ "." ++ String.mk (rightPad3 w.data)) = none :=
      fun p hp => hskip p (List.mem_cons_of_mem _ hp)
    simp only [List.cons_append, tryCombinations]
    rcases hq with h | h | ⟨b, w, hb, hw, hp⟩
    · have h1 : mget m bf = none := h
      rw [h1]
      cases mget m sf <;> exact ih ps hr
    · have h1 : mget m sf = none := h
      rw [h1]
      cases mget m bf <;> exact ih ps hr
    · have hb1 : mget m bf = some b := hb
      have hw1 : mget m sf = some w := hw
      rw [hb1, hw1]
      show (match parse_timestamp_with_subseconds
          (b ++ "." ++ String.mk (rightPad3 w.data)) with
        | some r => some r
        | none => tryCombinations m (qs ++ ps)) = tryCombinations m ps
      rw [hp]
      exact ih ps hr

/-- Skipping a prefix of absent fields in the shared field loop of
exif.rs:485-507 / exif.rs:559-570 leaves the result unchanged. -/
theorem tryFields_skip_prefix (m : List (String × String)) :
    ∀ (earlier fs : List String), (∀ g ∈ earlier, mget m g = none) →
      tryFieldsWithFileCheck m (earlier ++ fs) = tryFieldsWithFileCheck m fs := by
  intro earlier
  induction earlier with
  | nil => intro fs _; rfl
  | cons g gs ih =>
    intro fs hskip
    have hg : mget m g = none := hskip g (List.mem_cons_self _ _)
    have hr : ∀ x ∈ gs, mget m x = none :=
      fun x hx => hskip x (List.mem_cons_of_mem _ hx)
    simp only [List.cons_append, tryFieldsWithFileCheck, hg]
    exact ih fs hr

/-- C6 (amended): for every (base, fraction) pair resolved by the
combination step — any of the three pairs of `combination_fields`, with
every earlier pair passed over for any of the code's reasons, and the base
timestamp in either date-separator convention — with an unquoted all-digit
fraction, the millisecond value is the value of the fraction's first three
characters right-padded with zeros to width 3 — i.e. right-padding when the
fraction has fewer than three digits and truncation (not rounding) when it
has more; and when every fraction field is absent the resolution falls to a
base-only fallback field (any member of `fallback_fields`, its
predecessors absent) with millisecond 0.  (For quoted values the code
truncates to three characters before stripping the quotes, so the claimed
strip-first behaviour does not hold; see the counterexample.) -/
theorem c6_fraction_combination :
    (∀ (m : List (String × String)) (earlier rest : List (String × String))
        (bf sf : String) (sep : Char) (y mo dd hh mi ss : Nat) (v : String),
      combination_fields = earlier ++ (bf, sf) :: rest →
      (sep = '-' ∨ sep = ':') →
      y ≤ 9999 → 1 ≤ mo → mo ≤ 12 → 1 ≤ dd → dd ≤ daysInMonth (y : Int) mo →
      hh ≤ 23 → mi ≤ 59 → ss ≤ 59 →
      (∀ f ∈ pre_combined_fields, mget m f = none) →
      (∀ p ∈ earlier, mget m p.1 = none ∨ mget m p.2 = none ∨
        ∃ b w, mget m p.1 = some b ∧ mget m p.2 = some w ∧
          parse_timestamp_with_subseconds
              (b ++ "." ++ String.mk (rightPad3 w.data)) = none) →
      mget m bf = some (String.mk (mkTsChars sep y mo dd hh mi ss)) →
      mget m sf = some v →
      (∀ c ∈ v.data, c.isDigit = true) →
      extract_photo_timestamp m
        = some (⟨(y : Int), mo, dd, hh, mi, ss⟩,
            digitsToNat (rightPad3 (v.data.take 3)))) ∧
    (∀ L : List Char, 3 ≤ L.length → rightPad3 (L.take 3) = L.take 3) ∧
    (∀ L : List Char, L.length < 3 →
      rightPad3 (L.take 3) = L ++ List.replicate (3 - L.length) '0') ∧
    (∀ (m : List (String × String)) (gs hs : List String) (f : String)
        (sep : Char) (y mo dd hh mi ss : Nat),
      fallback_fields = gs ++ f :: hs →
      (sep = '-' ∨ sep = ':') →
      y ≤ 9999 → 1 ≤ mo → mo ≤ 12 → 1 ≤ dd → dd ≤ daysInMonth (y : Int) mo →
      hh ≤ 23 → mi ≤ 59 → ss ≤ 59 →
      (∀ g ∈ pre_combined_fields, mget m g = none) →
      mget m "SubSecTimeOriginal" = none → mget m "SubSecTime" = none →
      mget m "SubSecTimeDigitized" = none →
      (∀ g ∈ gs, mget m g = none) →
      mget m f = some (String.mk (mkTsChars sep y mo dd hh mi ss)) →
      extract_photo_timestamp m = some (⟨(y : Int), mo, dd, hh, mi, ss⟩, 0)) := by
  refine ⟨?_, ?_, ?_, ?_⟩
  · intro m earlier rest bf sf sep y mo dd hh mi ss v hce hsep hy hmo1 hmo2
      hd1 hd2 hh2 hmi2 hs2 habs hskip hbase hsub hv
    rw [extract_photo_timestamp, tryPreCombined_none_of_absent pre_combined_fields habs]
    rw [hce, tryCombinations_skip_prefix m earlier ((bf, sf) :: rest) hskip]
    have hcomb := combined_parse_eval sep y mo dd hh mi ss v hsep hy hmo1 hmo2
      hd1 hd2 hh2 hmi2 hs2 hv
    simp only [tryCombinations, hbase, hsub, hcomb]
  · intro L hL
    have : (L.take 3).length = 3 := by simp [List.length_take]; omega
    simp only [rightPad3, this]
    simp
  · intro L hL
    rw [List.take_of_length_le (by omega)]
    rfl
  · intro m gs hs f sep y mo dd hh mi ss hfe hsep hy hmo1 hmo2 hd1 hd2 hh2
      hmi2 hs2 habs h1 h2 h3 hge hbase
    have hsepdot : sep ≠ '.' := by rcases hsep with rfl | rfl <;> decide
    rw [extract_photo_timestamp, tryPreCombined_none_of_absent pre_combined_fields habs]
    have hcombnone : tryCombinations m combination_fields = none := by
      simp only [tryCombinations, combination_fields, h1, h2, h3]
      cases mget m "DateTimeOriginal" <;> cases mget m "ModifyDate" <;>
        cases mget m "DateTimeDigitized" <;> rfl
    rw [hcombnone, hfe, tryFields_skip_prefix m gs (f :: hs) hge]
    have hfmem : f ∈ fallback_fields := by
      rw [hfe]
      exact List.mem_append_right _ (List.mem_cons_self _ _)
    have hnofile : containsStr f.data "File".data = false := by
      have hall : ∀ g ∈ fallback_fields, containsStr g.data "File".data = false := by
        decide
      exact hall f hfmem
    have hparse : parse_timestamp_with_subseconds
        (String.mk (mkTsChars sep y mo dd hh mi ss))
        = some (⟨(y : Int), mo, dd, hh, mi, ss⟩, 0) := by
      rw [parse_timestamp_with_subseconds,
        show (String.mk (mkTsChars sep y mo dd hh mi ss)).data
          = mkTsChars sep y mo dd hh mi ss from rfl]
      exact parseTsCore_nodot (trimBoth_mkTs sep y mo dd hh mi ss)
        (mkTsChars_no_dot sep y mo dd hh mi ss hsepdot)
        (parseMainPart_mkTs_sep sep y mo dd hh mi ss hsep hy hmo1 hmo2
          hd1 hd2 hh2 hmi2 hs2)
    simp only [tryFieldsWithFileCheck, hbase, hnofile,
      Bool.false_and, Bool.false_eq_true, if_false, hparse]

def c6Bag : List (String × String) :=
  [("DateTimeOriginal", String.mk (mkTsChars ':' 2023 1 2 3 4 5)),
   ("SubSecTimeOriginal", "7")]

def c6Bag2 : List (String × String) :=
  [("ModifyDate", String.mk (mkTsChars '-' 2024 12 31 23 59 58)),
   ("SubSecTime", "12345")]

def c6Bag3 : List (String × String) :=
  [("ModifyDate", String.mk (mkTsChars '-' 2022 6 15 10 20 30))]

theorem c6_fraction_combination_witness :
    extract_photo_timestamp c6Bag = some (⟨2023, 1, 2, 3, 4, 5⟩, 700) ∧
    extract_photo_timestamp c6Bag2 = some (⟨2024, 12, 31, 23, 59, 58⟩, 123) ∧
    extract_photo_timestamp c6Bag3 = some (⟨2022, 6, 15, 10, 20, 30⟩, 0) := by
  refine ⟨?_, ?_, ?_⟩
  · rw [show extract_photo_timestamp c6Bag
        = some (⟨(2023 : Nat), 1, 2, 3, 4, 5⟩,
            digitsToNat (rightPad3 (("7" : String).data.take 3))) from
      c6_fraction_combination.1 c6Bag []
        [("ModifyDate", "SubSecTime"), ("DateTimeDigitized", "SubSecTimeDigitized")]
        "DateTimeOriginal" "SubSecTimeOriginal" ':' 2023 1 2 3 4 5 "7"
        rfl (Or.inr rfl) (by norm_num) (by norm_num) (by norm_num) (by norm_num)
        (by decide) (by norm_num) (by norm_num) (by norm_num) (by decide)
        (by intro p hp; cases hp) (by decide) (by decide) (by decide)]
    norm_num
    decide
  · rw [show extract_photo_timestamp c6Bag2
        = some (⟨(2024 : Nat), 12, 31, 23, 59, 58⟩,
            digitsToNat (rightPad3 (("12345" : String).data.take 3))) from
      c6_fraction_combination.1 c6Bag2
        [("DateTimeOriginal", "SubSecTimeOriginal")]
        [("DateTimeDigitized", "SubSecTimeDigitized")]
        "ModifyDate" "SubSecTime" '-' 2024 12 31 23 59 58 "12345"
        rfl (Or.inl rfl) (by norm_num) (by norm_num) (by norm_num) (by norm_num)
        (by decide) (by norm_num) (by norm_num) (by norm_num) (by decide)
        (by intro p hp
            rw [List.mem_singleton] at hp
            subst hp
            exact Or.inl (by decide))
        (by decide) (by decide) (by decide)]
    norm_num
    decide
  · rw [show extract_photo_timestamp c6Bag3
        = some (⟨(2022 : Nat), 6, 15, 10, 20, 30⟩, 0) from
      c6_fraction_combination.2.2.2 c6Bag3
        ["DateTimeOriginal", "CreationDate", "Create Date", "MakerNotes:CreateDate"]
        ["Modify Date", "MakerNotes:ModifyDate", "DateTimeDigitized"]
        "ModifyDate" '-' 2022 6 15 10 20 30
        rfl (Or.inl rfl) (by norm_num) (by norm_num) (by norm_num) (by norm_num)
        (by decide) (by norm_num) (by norm_num) (by norm_num)
        (by decide) (by decide) (by decide) (by decide) (by decide) (by decide)]
    norm_num

/-- C7: evaluation at the failing input.  A bag whose only field is a
non-zero, parseable "CreateDate" yields no timestamp: the photo fallback
list (`fallback_fields`) does not include "CreateDate" although the
function's own doc comment lists it as the last resort, and
`_is_zero_timestamp` — the all-zero guard the claim describes — has no
call site. -/
theorem c7_code_eval :
    extract_best_timestamp [("CreateDate", "2023:01:02 03:04:05")] = none ∧
    _is_zero_timestamp "2023:01:02 03:04:05" = false ∧
    parse_timestamp_with_subseconds "2023:01:02 03:04:05"
      = some (⟨2023, 1, 2, 3, 4, 5⟩, 0) ∧
    ("CreateDate" ∈ fallback_fields) = False := by
  refine ⟨by decide, by decide, by decide, by simp; decide⟩

/-! ### Claim theorems: filename generation -/

/-- C3: `generate_filename` is a pure deterministic function — identical
arguments give identical output and the claimed list is never mutated (it
is consumed by value in this model, mirroring the `&[String]` borrow in the
code); the returned path is never a member of the claimed list; and when
the canonical unsuffixed path is already claimed the result carries the
suffix `-n` for the least `n ≥ 2` whose suffixed name is not claimed. -/
theorem c3_generate_filename_pure :
    (∀ (dt : NaiveDT) (ms : Nat) (ext : String) (claimed : List String),
      generate_filename dt ms ext claimed = generate_filename dt ms ext claimed) ∧
    (∀ (dt : NaiveDT) (ms : Nat) (ext : String) (claimed : List String),
      generate_filename dt ms ext claimed ∉ claimed) ∧
    (∀ (dt : NaiveDT) (ms : Nat) (ext : String) (claimed : List String),
      canonicalPath dt ms ext ∈ claimed →
      ∃ n, 2 ≤ n ∧ generate_filename dt ms ext claimed = suffixedPath dt ms n ext ∧
        suffixedPath dt ms n ext ∉ claimed ∧
        ∀ j, 2 ≤ j → j < n → suffixedPath dt ms j ext ∈ claimed) := by
  refine ⟨fun _ _ _ _ => rfl, generate_filename_not_mem, ?_⟩
  intro dt ms ext claimed hca
  obtain ⟨m, heq, hfree, hall⟩ := generate_filename_spec dt ms ext claimed
  have hm0 : m ≠ 0 := by
    intro h0
    subst h0
    exact hfree hca
  obtain ⟨k, rfl⟩ : ∃ k, m = k + 1 := ⟨m - 1, by omega⟩
  refine ⟨k + 2, by omega, by rw [heq]; rfl, hfree, ?_⟩
  intro j hj2 hjlt
  obtain ⟨i, rfl⟩ : ∃ i, j = i + 2 := ⟨j - 2, by omega⟩
  exact hall (i + 1) (by omega)

def c3Claimed : List String := ["2023/01-Jan/20230102_030405.000.jpg"]

theorem c3_generate_filename_pure_witness :
    (∃ n, 2 ≤ n ∧
      generate_filename ⟨2023, 1, 2, 3, 4, 5⟩ 0 "jpg" c3Claimed
        = suffixedPath ⟨2023, 1, 2, 3, 4, 5⟩ 0 n "jpg" ∧
      suffixedPath ⟨2023, 1, 2, 3, 4, 5⟩ 0 n "jpg" ∉ c3Claimed ∧
      ∀ j, 2 ≤ j → j < n → suffixedPath ⟨2023, 1, 2, 3, 4, 5⟩ 0 j "jpg" ∈ c3Claimed) ∧
    generate_filename ⟨2023, 1, 2, 3, 4, 5⟩ 0 "jpg" c3Claimed
      = "2023/01-Jan/20230102_030405.000-2.jpg" :=
  ⟨c3_generate_filename_pure.2.2 ⟨2023, 1, 2, 3, 4, 5⟩ 0 "jpg" c3Claimed (by decide),
   by decide⟩

/-- C4 (counterexample): the year is rendered unpadded, so a timestamp with
a three-digit year produces a path whose year component has three digits,
violating the bit-exact `YYYY/MM-Mon/YYYYMMDD_...` contract the claim
states for every UTC timestamp. -/
theorem c4_counterexample :
    generate_filename ⟨999, 9, 24, 8, 20, 49⟩ 680 "jpg" []
      = "999/09-Sep/9990924_082049.680.jpg" ∧
    specCanonicalPathFormat (generate_filename ⟨999, 9, 24, 8, 20, 49⟩ 680 "jpg" [])
      = false := by
  decide

/-- C4 (amended): for every timestamp whose year has four digits
(1000-9999), in-range field values and millisecond value in [0, 999], the
generated path matches the bit-exact canonical format
`YYYY/MM-Mon/YYYYMMDD_HHMMSS.mmm[-N].ext` with the fixed English
three-letter month abbreviation and exactly three millisecond digits; the
unsuffixed canonical path is produced whenever it is not already claimed,
and a `-N` suffix with `N ≥ 2` appears only when it is. -/
theorem c4_canonical_format (dt : NaiveDT) (ms : Nat) (ext : String)
    (claimed : List String)
    (hy1 : 1000 ≤ dt.year) (hy2 : dt.year ≤ 9999)
    (hmo1 : 1 ≤ dt.month) (hmo2 : dt.month ≤ 12)
    (hd : dt.day ≤ 99) (hhr : dt.hour ≤ 99) (hmi : dt.minute ≤ 99)
    (hs : dt.second ≤ 99) (hms : ms ≤ 999) :
    specCanonicalPathFormat (generate_filename dt ms ext claimed) = true ∧
    (canonicalPath dt ms ext ∉ claimed →
      generate_filename dt ms ext claimed = canonicalPath dt ms ext) ∧
    (canonicalPath dt ms ext ∈ claimed →
      ∃ n, 2 ≤ n ∧ generate_filename dt ms ext claimed = suffixedPath dt ms n ext) := by
  obtain ⟨m, heq, hfree, hall⟩ := generate_filename_spec dt ms ext claimed
  refine ⟨?_, ?_, ?_⟩
  · cases m with
    | zero =>
      rw [heq, show tieCandidate dt ms ext 0 = canonicalPath dt ms ext from rfl]
      exact specFormat_canonical dt ms ext hy1 hy2 hmo1 hmo2 hd hhr hmi hs hms
    | succ k =>
      rw [heq, show tieCandidate dt ms ext (k + 1) = suffixedPath dt ms (k + 2) ext
        from rfl]
      exact specFormat_suffixed dt ms (k + 2) ext hy1 hy2 hmo1 hmo2 hd hhr hmi hs hms
        (by omega)
  · intro hnc
    cases m with
    | zero => rw [heq]; rfl
    | succ k =>
      exact absurd (hall 0 (by omega)) hnc
  · intro hc
    cases m with
    | zero => exact absurd hc hfree
    | succ k => exact ⟨k + 2, by omega, by rw [heq]; rfl⟩

theorem c4_canonical_format_witness :
    specCanonicalPathFormat
        (generate_filename ⟨2023, 1, 2, 3, 4, 5⟩ 0 "jpg" c3Claimed) = true ∧
    generate_filename ⟨2023, 1, 2, 3, 4, 5⟩ 999 "jpg" []
      = "2023/01-Jan/20230102_030405.999.jpg" :=
  ⟨(c4_canonical_format ⟨2023, 1, 2, 3, 4, 5⟩ 0 "jpg" c3Claimed (by norm_num)
      (by norm_num) (by norm_num) (by norm_num) (by norm_num) (by norm_num)
      (by norm_num) (by norm_num) (by norm_num)).1,
   by decide⟩

/-! ### Claim theorems: orchestration -/

/-- C10: Phase 1 analysis of a symbolic-link input returns an
`AnalysisResult` whose success flag is true, carrying the diagnostic
"Skipped symlink - cannot process symbolic links" and neither EXIF data nor
a proposed filename — so at the analysis stage a symlinked input is a
successful (skipped) outcome, not a failure. -/
theorem c10_symlink_success (env : FsEnv) (p : String)
    (h : env.isSymlink p = true) :
    analyze_single_file env p =
      { file_path := p
        success := true
        error := some "Skipped symlink - cannot process symbolic links"
        exif_data := none
        new_filename := none } := by
  rw [analyze_single_file, if_pos h]

def plainEnv : FsEnv :=
  { isSymlink := fun _ => true
    meta1 := fun _ => none
    meta2 := fun _ => none
    pathExists := fun _ => false
    hashOf := fun _ => none
    mkdirResult := fun _ => none
    opResult := fun _ _ => none }

theorem c10_symlink_success_witness :
    analyze_single_file plainEnv "link.jpg" =
      { file_path := "link.jpg"
        success := true
        error := some "Skipped symlink - cannot process symbolic links"
        exif_data := none
        new_filename := none } :=
  c10_symlink_success plainEnv "link.jpg" rfl

/-- C8: during placement, when the final target exists on disk and the
hash index holds equal hashes for the source and the existing target, the
file is reported as a skipped duplicate ("Content duplicate", success
without rename) and no filesystem action is attempted — no directory
creation and no move/copy/symlink — and the bucket's claimed-name list is
unchanged; when either hash is missing from the index or the hashes
differ, placement proceeds normally through `placeFile` (directory
creation, self-rename check, file operation). -/
theorem c8_duplicate_detection :
    (∀ (env : FsEnv) (hi : List (String × String)) (outDir mode : String)
      (existing : List String) (ar : AnalysisResult) (ed : ExifData)
      (fn h1 h2 : String),
      ar.success = true → ar.exif_data = some ed → ar.new_filename = some fn →
      env.pathExists (joinPath outDir (generate_filename ed.timestamp
        ed.milliseconds (get_file_extension ar.file_path) existing)) = true →
      mget hi ar.file_path = some h1 →
      mget hi (joinPath outDir (generate_filename ed.timestamp ed.milliseconds
        (get_file_extension ar.file_path) existing)) = some h2 →
      h1 = h2 →
      process_single_file_rename env hi outDir mode existing ar
        = (⟨ar.file_path, true, false, none, some "Content duplicate"⟩,
            [], existing)) ∧
    (∀ (env : FsEnv) (hi : List (String × String)) (outDir mode : String)
      (existing : List String) (ar : AnalysisResult) (ed : ExifData) (fn : String),
      ar.success = true → ar.exif_data = some ed → ar.new_filename = some fn →
      (mget hi ar.file_path = none ∨
        mget hi (joinPath outDir (generate_filename ed.timestamp ed.milliseconds
          (get_file_extension ar.file_path) existing)) = none ∨
        (∀ g1 g2 : String, mget hi ar.file_path = some g1 →
          mget hi (joinPath outDir (generate_filename ed.timestamp ed.milliseconds
            (get_file_extension ar.file_path) existing)) = some g2 → g1 ≠ g2)) →
      process_single_file_rename env hi outDir mode existing ar
        = placeFile env mode existing ar.file_path
            (generate_filename ed.timestamp ed.milliseconds
              (get_file_extension ar.file_path) existing)
            (joinPath outDir (generate_filename ed.timestamp ed.milliseconds
              (get_file_extension ar.file_path) existing))) := by
  constructor
  · intro env hi outDir mode existing ar ed fn h1 h2 hsuc hed hfn hex hm1 hm2 heq
    rw [process_single_file_rename]
    rw [if_neg (by rw [hsuc]; simp)]
    rw [hed, hfn]
    simp only [hex, hm1, hm2, heq]
    simp
  · intro env hi outDir mode existing ar ed fn hsuc hed hfn hdisj
    rw [process_single_file_rename]
    rw [if_neg (by rw [hsuc]; simp)]
    rw [hed, hfn]
    have hdup : (match mget hi ar.file_path,
        mget hi (joinPath outDir (generate_filename ed.timestamp ed.milliseconds
          (get_file_extension ar.file_path) existing)) with
      | some g1, some g2 => g1 == g2
      | _, _ => false) = false := by
      rcases hdisj with h | h | h
      · rw [h]
      · rw [h]
        cases mget hi ar.file_path <;> rfl
      · cases hm1 : mget hi ar.file_path with
        | none => rfl
        | some g1 =>
          cases hm2 : mget hi (joinPath outDir (generate_filename ed.timestamp
            ed.milliseconds (get_file_extension ar.file_path) existing)) with
          | none => rfl
          | some g2 =>
            simpa using h g1 g2 hm1 hm2
    simp only [hdup, Bool.and_false, Bool.false_eq_true, if_false]

def c8Env : FsEnv :=
  { isSymlink := fun _ => false
    meta1 := fun _ => none
    meta2 := fun _ => none
    pathExists := fun _ => true
    hashOf := fun _ => none
    mkdirResult := fun _ => none
    opResult := fun _ _ => none }

def c8Exif : ExifData := ⟨⟨2023, 1, 2, 3, 4, 5⟩, 0, []⟩

def c8Ar : AnalysisResult :=
  ⟨"src.jpg", true, none, some c8Exif, some "2023/01-Jan/20230102_030405.000.jpg"⟩

def c8HiDup : List (String × String) :=
  [("src.jpg", "h77"), ("out/2023/01-Jan/20230102_030405.000.jpg", "h77")]

def c8HiMiss : List (String × String) := [("src.jpg", "h77")]

theorem c8_duplicate_detection_witness :
    process_single_file_rename c8Env c8HiDup "out" "move" [] c8Ar
      = (⟨"src.jpg", true, false, none, some "Content duplicate"⟩, [], []) ∧
    process_single_file_rename c8Env c8HiMiss "out" "move" [] c8Ar
      = placeFile c8Env "move" [] "src.jpg"
          (generate_filename c8Exif.timestamp c8Exif.milliseconds
            (get_file_extension "src.jpg") [])
          (joinPath "out" (generate_filename c8Exif.timestamp c8Exif.milliseconds
            (get_file_extension "src.jpg") [])) :=
  ⟨c8_duplicate_detection.1 c8Env c8HiDup "out" "move" [] c8Ar c8Exif
      "2023/01-Jan/20230102_030405.000.jpg" "h77" "h77" rfl rfl rfl
      (by decide) (by decide) (by decide) rfl,
   c8_duplicate_detection.2 c8Env c8HiMiss "out" "move" [] c8Ar c8Exif
      "2023/01-Jan/20230102_030405.000.jpg" rfl rfl rfl
      (Or.inr (Or.inl (by decide)))⟩

/-- C9: every key of the content-hash index built after Phase 1 is either
the source path of a successful analysis whose provisional target already
exists on disk, or that existing provisional target itself — hashing is
restricted to colliding paths, never the full input set; an input whose
provisional target does not exist contributes no hash. -/
theorem c9_hash_index_domain (env : FsEnv) (outDir : String) :
    ∀ (results : List AnalysisResult) (k : String),
      (mget (build_content_hash_index env outDir results) k).isSome = true →
      ∃ r ∈ results, r.success = true ∧ ∃ ed fn, r.exif_data = some ed ∧
        r.new_filename = some fn ∧ env.pathExists (joinPath outDir fn) = true ∧
        (k = r.file_path ∨ k = joinPath outDir fn) := by
  have hfold : ∀ (l : List String) (k : String),
      (mget (l.foldr (fun p acc =>
        match env.hashOf p with
        | some h => (p, h) :: acc
        | none => acc) []) k).isSome = true → k ∈ l := by
    intro l
    induction l with
    | nil => intro k hk; simp [mget] at hk
    | cons p l ih =>
      intro k hk
      simp only [List.foldr_cons] at hk
      cases hhp : env.hashOf p with
      | some h =>
        rw [hhp] at hk
        simp only [mget] at hk
        by_cases hpk : p = k
        · exact hpk ▸ List.mem_cons_self p l
        · rw [if_neg hpk] at hk
          exact List.mem_cons_of_mem _ (ih k hk)
      | none =>
        rw [hhp] at hk
        exact List.mem_cons_of_mem _ (ih k hk)
  have hmem : ∀ (results : List AnalysisResult) (k : String),
      k ∈ filesToHash env outDir results →
      ∃ r ∈ results, r.success = true ∧ ∃ ed fn, r.exif_data = some ed ∧
        r.new_filename = some fn ∧ env.pathExists (joinPath outDir fn) = true ∧
        (k = r.file_path ∨ k = joinPath outDir fn) := by
    intro results
    induction results with
    | nil => intro k hk; simp [filesToHash] at hk
    | cons r rest ih =>
      intro k hk
      rw [filesToHash] at hk
      rcases List.mem_append.mp hk with h1 | h1
      · by_cases hsuc : r.success = true
        · rw [if_pos hsuc] at h1
          cases hed : r.exif_data with
          | none => rw [hed] at h1; simp at h1
          | some ed =>
            cases hfn : r.new_filename with
            | none => rw [hed, hfn] at h1; simp at h1
            | some fn =>
              rw [hed, hfn] at h1
              simp only at h1
              by_cases hex : env.pathExists (joinPath outDir fn) = true
              · rw [if_pos hex] at h1
                rcases List.mem_cons.mp h1 with rfl | h2
                · exact ⟨r, List.mem_cons_self r rest, hsuc, ed, fn, hed, hfn, hex,
                    Or.inl rfl⟩
                · rcases List.mem_cons.mp h2 with rfl | h3
                  · exact ⟨r, List.mem_cons_self r rest, hsuc, ed, fn, hed, hfn, hex,
                      Or.inr rfl⟩
                  · simp at h3
              · rw [if_neg hex] at h1
                simp at h1
        · rw [if_neg hsuc] at h1
          simp at h1
      · obtain ⟨r', hr', hrest⟩ := ih k h1
        exact ⟨r', List.mem_cons_of_mem _ hr', hrest⟩
  intro results k hk
  exact hmem results k (hfold (filesToHash env outDir results) k hk)

def c9Env : FsEnv :=
  { isSymlink := fun _ => false
    meta1 := fun _ => none
    meta2 := fun _ => none
    pathExists := fun p => p = "out/2023/01-Jan/20230102_030405.000.jpg"
    hashOf := fun p => some ("H:" ++ p)
    mkdirResult := fun _ => none
    opResult := fun _ _ => none }

def c9Results : List AnalysisResult :=
  [⟨"a.jpg", true, none, some c8Exif, some "2023/01-Jan/20230102_030405.000.jpg"⟩,
   ⟨"b.jpg", true, none, some c8Exif, some "2024/01-Jan/20240102_030405.000.jpg"⟩]

theorem c9_hash_index_domain_witness :
    (∃ r ∈ c9Results, r.success = true ∧ ∃ ed fn, r.exif_data = some ed ∧
      r.new_filename = some fn ∧ c9Env.pathExists (joinPath "out" fn) = true ∧
      ("a.jpg" = r.file_path ∨ "a.jpg" = joinPath "out" fn)) ∧
    build_content_hash_index c9Env "out" c9Results
      = [("a.jpg", "H:a.jpg"),
         ("out/2023/01-Jan/20230102_030405.000.jpg",
          "H:out/2023/01-Jan/20230102_030405.000.jpg")] ∧
    (mget (build_content_hash_index c9Env "out" c9Results) "b.jpg").isSome = false :=
  ⟨c9_hash_index_domain c9Env "out" c9Results "a.jpg" (by decide),
   by decide, by decide⟩

def c1Env : FsEnv :=
  { isSymlink := fun _ => false
    meta1 := fun p => if p = "good.jpg"
      then some [("DateTimeOriginal", "2023:01:02 03:04:05")] else none
    meta2 := fun _ => none
    pathExists := fun _ => false
    hashOf := fun _ => none
    mkdirResult := fun _ => none
    opResult := fun _ _ => none }

/-- C1: evaluation at the failing input.  A two-file batch whose first file
fails analysis (no metadata backend succeeds) produces a report with a
single `ProcessResult`: the failed file is dropped by the grouping loop of
`rename_files_parallel` (file_ops.rs:323-329 keeps only results carrying
EXIF data), so the report does not cover every input exactly once, and the
unreachable failure branch of `process_single_file_rename`
(file_ops.rs:395-403) never converts the failure into a report entry. -/
theorem c1_code_eval :
    process_files c1Env ["bad.jpg", "good.jpg"] "out" "move"
      = [⟨"good.jpg", true, true,
          some "out/2023/01-Jan/20230102_030405.000.jpg", none⟩] ∧
    (process_files c1Env ["bad.jpg", "good.jpg"] "out" "move").length = 1 := by
  constructor
  · decide
  · decide
